import Mathlib

/-!
# Verification of the scrcpy-go streaming bridge (`goapp/main.go`)

A shallow embedding, in Lean 4, of the pure computational core of the Go
program: the PTS→RTP timestamp mapping, the bounded RTP payload channel,
the Annex-B NALU splitter, the H.264 SPS dimension decoder (bit reader,
Exp-Golomb codes, scaling-list skipping), the keyframe-gate step of the
main video loop, the RTP marker policy of the two send paths, the touch
slot mapper and the 32-byte touch wire encoder.

Machine integers are embedded as `Nat` (or `Int` for Go's signed `int`),
with explicit reductions modulo `2^w` exactly where the Go code's
fixed-width arithmetic can wrap.  Go functions returning `(value, ok)`
pairs become `Option`-valued Lean functions (`none` = `ok=false`).
Go's float64 pressure value is embedded as a rational number.
-/

namespace ScrcpyGo

/-- `2^64`, the modulus of Go's `uint64`/`uint` arithmetic. -/
def U64 : Nat := 18446744073709551616

/-- `2^32`, the modulus of Go's `uint32` arithmetic. -/
def U32 : Nat := 4294967296

/-- `2^16`, the modulus of Go's `uint16` arithmetic. -/
def U16 : Nat := 65536

/-- scrcpy PTS unit, microseconds per second (`ptsPerSecond` in main.go). -/
def ptsPerSecond : Nat := 1000000

/-- Embedding of `rtpTSFromPTS` (main.go:1092-1095):
`delta := pts - base` in wrapping `uint64` arithmetic, then
`uint32((delta * 90000) / ptsPerSecond)`. -/
def rtpTSFromPTS (pts base : Nat) : Nat :=
  let delta := (pts + (U64 - base % U64)) % U64
  ((delta * 90000) % U64 / ptsPerSecond) % U32

/-- Wrapping `uint64` subtraction agrees with `Nat` subtraction below `2^64`. -/
theorem wrapSub_eq (pts base : Nat) (hp : pts < U64) (hb : base ≤ pts) :
    (pts + (U64 - base % U64)) % U64 = pts - base := by
  unfold U64 at *
  omega

/-- C3: `rtpTSFromPTS(pts, base)` is `((pts − base) · 90000) / 1_000_000`
computed in wrapping unsigned 64-bit arithmetic and truncated to 32 bits;
it returns `0` when `pts = base` and `2999` when `pts − base = 33333`. -/
theorem rtpTSFromPTS_correct (pts base : Nat) (hp : pts < U64) (hb : base ≤ pts) :
    rtpTSFromPTS pts base = ((pts - base) * 90000 % U64 / 1000000) % U32
    ∧ rtpTSFromPTS pts pts = 0
    ∧ (pts + 33333 < U64 → rtpTSFromPTS (pts + 33333) pts = 2999) := by
  refine ⟨?_, ?_, ?_⟩
  · unfold rtpTSFromPTS ptsPerSecond
    rw [wrapSub_eq pts base hp hb]
  · unfold rtpTSFromPTS ptsPerSecond
    rw [wrapSub_eq pts pts hp le_rfl]
    simp
  · intro h
    unfold rtpTSFromPTS ptsPerSecond
    rw [wrapSub_eq (pts + 33333) pts h (by omega)]
    have h1 : pts + 33333 - pts = 33333 := by omega
    rw [h1]
    unfold U64 U32
    norm_num

/-- Closed instance of `rtpTSFromPTS_correct` at `pts = 1033333`, `base = 1000000`
(the spec's first-subscriber scenario). -/
theorem rtpTSFromPTS_correct_witness :
    1033333 < U64 ∧ 1000000 ≤ 1033333 ∧ rtpTSFromPTS 1033333 1000000 = 2999 := by
  refine ⟨by unfold U64; norm_num, by norm_num, ?_⟩
  have h := (rtpTSFromPTS_correct 1000000 1000000 (by unfold U64; norm_num) le_rfl).2.2
    (by unfold U64; norm_num)
  simpa using h

/-! ## The bounded RTP payload channel (§4.14 of the spec) -/

/-- Embedding of `RtpPayload` (main.go:430-434). -/
structure RtpPayload where
  nalus : List (List Nat)
  rtpTimestamp : Nat
  isAccessUnit : Bool
deriving DecidableEq

/-- `rtpPayloadChannelSize` (main.go:348). -/
def rtpPayloadChannelSize : Nat := 3

/-- The observable state of the buffered Go channel `frameChannel`
(main.go:437) together with the `frames_dropped_on_send` counter. -/
structure FrameChannel where
  queue : List RtpPayload
  framesDropped : Nat
deriving DecidableEq

/-- Embedding of `pushToRTPChannel` (main.go:442-452): a non-blocking
`select` send on a channel of capacity `rtpPayloadChannelSize`; when the
buffer is full the payload being pushed is discarded and the drop counter
incremented. -/
def pushToRTPChannel (ch : FrameChannel) (payload : RtpPayload) : FrameChannel :=
  if ch.queue.length < rtpPayloadChannelSize then
    { ch with queue := ch.queue ++ [payload] }
  else
    { ch with framesDropped := ch.framesDropped + 1 }

/-- C9: `pushToRTPChannel` never blocks: with free space the payload is
appended to the queue and the drop counter is unchanged; when the queue
holds `rtpPayloadChannelSize = 3` (or more) payloads, the newest payload
(the one being pushed) is discarded, `framesDropped` increases by exactly
one, and the queued contents are unchanged. -/
theorem pushToRTPChannel_drop_newest (ch : FrameChannel) (payload : RtpPayload) :
    (ch.queue.length < rtpPayloadChannelSize →
      (pushToRTPChannel ch payload).queue = ch.queue ++ [payload]
      ∧ (pushToRTPChannel ch payload).framesDropped = ch.framesDropped)
    ∧ (rtpPayloadChannelSize ≤ ch.queue.length →
      (pushToRTPChannel ch payload).queue = ch.queue
      ∧ (pushToRTPChannel ch payload).framesDropped = ch.framesDropped + 1) := by
  constructor
  · intro h
    simp [pushToRTPChannel, h]
  · intro h
    have h' : ¬ ch.queue.length < rtpPayloadChannelSize := by omega
    simp [pushToRTPChannel, h']

/-- Closed instance of `pushToRTPChannel_drop_newest` on a full queue: the
push is dropped, the counter increments. -/
theorem pushToRTPChannel_drop_newest_witness :
    rtpPayloadChannelSize ≤ ([⟨[], 0, true⟩, ⟨[], 1, true⟩, ⟨[], 2, true⟩] :
      List RtpPayload).length
    ∧ (pushToRTPChannel ⟨[⟨[], 0, true⟩, ⟨[], 1, true⟩, ⟨[], 2, true⟩], 0⟩
        ⟨[], 3, true⟩).queue = [⟨[], 0, true⟩, ⟨[], 1, true⟩, ⟨[], 2, true⟩]
    ∧ (pushToRTPChannel ⟨[⟨[], 0, true⟩, ⟨[], 1, true⟩, ⟨[], 2, true⟩], 0⟩
        ⟨[], 3, true⟩).framesDropped = 0 + 1 := by
  refine ⟨by decide, ?_⟩
  exact (pushToRTPChannel_drop_newest ⟨[⟨[], 0, true⟩, ⟨[], 1, true⟩, ⟨[], 2, true⟩], 0⟩
    ⟨[], 3, true⟩).2 (by decide)

/-! ## Annex-B parsing (§4.2 of the spec) -/

/-- Embedding of `findStartCode` (main.go:1066-1078): scan `b` from index
`from` for the first `00 00 01` or `00 00 00 01` start code, returning the
pair (start index, end index) or `none` (Go returns `(-1, -1)`). -/
def findStartCode (b : List Nat) (i : Nat) : Option (Nat × Nat) :=
  if i + 3 ≤ b.length then
    if b.getD i 0 = 0 ∧ b.getD (i+1) 0 = 0 ∧ b.getD (i+2) 0 = 1 then
      some (i, i + 3)
    else if i + 4 ≤ b.length ∧ b.getD i 0 = 0 ∧ b.getD (i+1) 0 = 0 ∧
        b.getD (i+2) 0 = 0 ∧ b.getD (i+3) 0 = 1 then
      some (i, i + 4)
    else
      findStartCode b (i + 1)
  else
    none
termination_by b.length - i

theorem findStartCode_bounds (b : List Nat) (i s e : Nat)
    (h : findStartCode b i = some (s, e)) :
    i ≤ s ∧ s + 3 ≤ e ∧ e ≤ s + 4 ∧ e ≤ b.length := by
  rw [findStartCode] at h
  split at h
  · next hlen =>
    split at h
    · simp only [Option.some.injEq, Prod.mk.injEq] at h
      omega
    · split at h
      · next hc =>
        simp only [Option.some.injEq, Prod.mk.injEq] at h
        omega
      · have := findStartCode_bounds b (i + 1) s e h
        omega
  · exact absurd h (by simp)
termination_by b.length - i

/-- Embedding of `splitAnnexBNALUs`'s scan loop (main.go:1039-1062),
parameterised by the current scan index `i`. -/
def splitLoop (b : List Nat) (i : Nat) : List (List Nat) :=
  match hsc : findStartCode b i with
  | none => []
  | some sc =>
    match hns : findStartCode b sc.2 with
    | none =>
      let n := b.drop sc.2
      if n.length > 0 then [n] else []
    | some nx =>
      let n := (b.drop sc.2).take (nx.1 - sc.2)
      (if n.length > 0 then [n] else []) ++ splitLoop b nx.1
termination_by b.length - i
decreasing_by
  have h1 := findStartCode_bounds b i sc.1 sc.2 (by rw [hsc])
  have h2 := findStartCode_bounds b sc.2 nx.1 nx.2 (by rw [hns])
  omega

/-- Embedding of `splitAnnexBNALUs` (main.go:1039-1062). -/
def splitAnnexBNALUs (b : List Nat) : List (List Nat) :=
  splitLoop b 0

/-- Structural reformulation of `findStartCode` on the suffix starting at the
scan index: scan a list for the first start code, reporting (start, end)
offsets relative to the head. -/
def fsc : List Nat → Option (Nat × Nat)
  | x :: y :: z :: rest =>
    if x = 0 ∧ y = 0 ∧ z = 1 then some (0, 3)
    else if x = 0 ∧ y = 0 ∧ z = 0 ∧ rest.getD 0 0 = 1 ∧ 1 ≤ rest.length then some (0, 4)
    else (fsc (y :: z :: rest)).map fun p => (p.1 + 1, p.2 + 1)
  | _ => none

theorem getD_drop_zero (b : List Nat) (i k : Nat) :
    (b.drop i).getD k 0 = b.getD (i + k) 0 := by
  simp [List.getD_eq_getElem?_getD, List.getElem?_drop]

theorem drop_cons3 (b : List Nat) (i : Nat) (h : i + 3 ≤ b.length) :
    b.drop i = b.getD i 0 :: b.getD (i+1) 0 :: b.getD (i+2) 0 :: b.drop (i+3) := by
  have h0 : i < b.length := by omega
  have h1 : i + 1 < b.length := by omega
  have h2 : i + 2 < b.length := by omega
  rw [List.drop_eq_getElem_cons h0, List.drop_eq_getElem_cons h1, List.drop_eq_getElem_cons h2,
    List.getD_eq_getElem b 0 h0, List.getD_eq_getElem b 0 h1, List.getD_eq_getElem b 0 h2]

/-- The indexed scanner agrees with the structural scanner on the suffix. -/
theorem findStartCode_eq_fsc (b : List Nat) (i : Nat) :
    findStartCode b i = (fsc (b.drop i)).map (fun p => (p.1 + i, p.2 + i)) := by
  rw [findStartCode]
  split
  · next hlen =>
    rw [drop_cons3 b i hlen]
    have hdl : (b.drop (i+3)).getD 0 0 = b.getD (i+3) 0 := by
      rw [getD_drop_zero]
    have hll : (b.drop (i+3)).length = b.length - (i+3) := by
      simp
    split
    · next hc =>
      obtain ⟨h1, h2, h3⟩ := hc
      rw [h1, h2, h3]
      rw [fsc, if_pos ⟨rfl, rfl, rfl⟩]
      simp only [Option.map_some', Option.some.injEq, Prod.mk.injEq]
      omega
    · next hc =>
      split
      · next hc4 =>
        obtain ⟨hl4, h1, h2, h3, h4⟩ := hc4
        rw [h1, h2, h3]
        rw [fsc]
        rw [if_neg (by simp), if_pos (by refine ⟨rfl, rfl, rfl, ?_, ?_⟩ <;> omega)]
        simp only [Option.map_some', Option.some.injEq, Prod.mk.injEq]
        omega
      · next hc4 =>
        rw [fsc]
        rw [if_neg hc]
        rw [if_neg (by
          rw [hdl, hll]
          rintro ⟨a1, a2, a3, a4, a5⟩
          exact hc4 ⟨by omega, a1, a2, a3, a4⟩)]
        have htail : b.drop (i+1) = b.getD (i+1) 0 :: b.getD (i+2) 0 :: b.drop (i+3) := by
          rw [← List.tail_drop, drop_cons3 b i hlen]
          rfl
        rw [← htail, findStartCode_eq_fsc b (i+1)]
        cases fsc (b.drop (i+1)) with
        | none => rfl
        | some p =>
          simp only [Option.map_some', Option.some.injEq, Prod.mk.injEq]
          omega
  · next hlen =>
    have hl : (b.drop i).length < 3 := by simp; omega
    match hd : b.drop i with
    | [] => simp [fsc]
    | [x] => simp [fsc]
    | [x, y] => simp [fsc]
    | x :: y :: z :: t =>
      rw [hd] at hl
      simp at hl
      omega
termination_by b.length - i

theorem fsc_bounds (b : List Nat) (s e : Nat) (h : fsc b = some (s, e)) :
    s + 3 ≤ e ∧ e ≤ s + 4 ∧ e ≤ b.length := by
  have hb := findStartCode_eq_fsc b 0
  rw [List.drop_zero, h] at hb
  have := findStartCode_bounds b 0 s e (by simpa using hb)
  omega

/-- Structural reformulation of the split loop on the suffix. -/
def splitF (b : List Nat) : List (List Nat) :=
  match hsc : fsc b with
  | none => []
  | some sc =>
    match hns : fsc (b.drop sc.2) with
    | none =>
      let n := b.drop sc.2
      if n.length > 0 then [n] else []
    | some nx =>
      let n := (b.drop sc.2).take nx.1
      (if n.length > 0 then [n] else []) ++ splitF (b.drop (sc.2 + nx.1))
termination_by b.length
decreasing_by
  have h1 := fsc_bounds b sc.1 sc.2 (by rw [hsc])
  simp only [List.length_drop]
  omega

theorem splitLoop_eq_of_none (b : List Nat) (i : Nat) (h : findStartCode b i = none) :
    splitLoop b i = [] := by
  rw [splitLoop, h]

theorem splitLoop_eq_of_tail (b : List Nat) (i s e : Nat)
    (h : findStartCode b i = some (s, e)) (h2 : findStartCode b e = none) :
    splitLoop b i = if (b.drop e).length > 0 then [b.drop e] else [] := by
  rw [splitLoop, h]
  dsimp only
  rw [h2]

theorem splitLoop_eq_of_cons (b : List Nat) (i s e ns ne : Nat)
    (h : findStartCode b i = some (s, e)) (h2 : findStartCode b e = some (ns, ne)) :
    splitLoop b i =
      (if ((b.drop e).take (ns - e)).length > 0 then [(b.drop e).take (ns - e)] else [])
        ++ splitLoop b ns := by
  rw [splitLoop, h]
  dsimp only
  rw [h2]

theorem splitF_eq_of_none (b : List Nat) (h : fsc b = none) : splitF b = [] := by
  rw [splitF, h]

theorem splitF_eq_of_tail (b : List Nat) (s e : Nat)
    (h : fsc b = some (s, e)) (h2 : fsc (b.drop e) = none) :
    splitF b = if (b.drop e).length > 0 then [b.drop e] else [] := by
  rw [splitF, h]
  dsimp only
  rw [h2]

theorem splitF_eq_of_cons (b : List Nat) (s e ns ne : Nat)
    (h : fsc b = some (s, e)) (h2 : fsc (b.drop e) = some (ns, ne)) :
    splitF b =
      (if ((b.drop e).take ns).length > 0 then [(b.drop e).take ns] else [])
        ++ splitF (b.drop (e + ns)) := by
  rw [splitF, h]
  dsimp only
  rw [h2]

/-- The indexed split loop agrees with the structural split on the suffix. -/
theorem splitLoop_eq_splitF (b : List Nat) (i : Nat) :
    splitLoop b i = splitF (b.drop i) := by
  have hmap := findStartCode_eq_fsc b i
  cases h : fsc (b.drop i) with
  | none =>
    rw [h] at hmap
    rw [splitLoop_eq_of_none b i (by simpa using hmap), splitF_eq_of_none _ h]
  | some p =>
    obtain ⟨s, e⟩ := p
    rw [h] at hmap
    simp only [Option.map_some'] at hmap
    have hb1 := fsc_bounds _ _ _ h
    have hdd : (b.drop i).drop e = b.drop (e + i) := by
      rw [List.drop_drop]
      ring_nf
    have hmap2 := findStartCode_eq_fsc b (e + i)
    rw [← hdd] at hmap2
    cases h2 : fsc ((b.drop i).drop e) with
    | none =>
      rw [h2] at hmap2
      rw [splitLoop_eq_of_tail b i (s + i) (e + i) hmap (by simpa using hmap2),
        splitF_eq_of_tail _ s e h h2, hdd]
    | some q =>
      obtain ⟨ns, ne⟩ := q
      rw [h2] at hmap2
      simp only [Option.map_some'] at hmap2
      have hb2 := fsc_bounds _ _ _ h2
      rw [splitLoop_eq_of_cons b i (s + i) (e + i) (ns + (e + i)) (ne + (e + i)) hmap hmap2,
        splitF_eq_of_cons _ s e ns ne h h2, hdd]
      have harith : ns + (e + i) - (e + i) = ns := by omega
      rw [harith]
      have hrec : splitLoop b (ns + (e + i)) = splitF (b.drop (i + (e + ns))) := by
        rw [splitLoop_eq_splitF b (ns + (e + i))]
        refine congrArg splitF (congrArg (fun k => b.drop k) (by omega))
      have hdd2 : (b.drop i).drop (e + ns) = b.drop (i + (e + ns)) := by
        rw [List.drop_drop]
      rw [hrec, hdd2]
termination_by b.length - i
decreasing_by
  simp only [List.length_drop] at hb1 hb2
  omega

/-- The concatenation `startCode ++ n` for each NALU `n` in order
(the encoding side of the spec's Annex-B round-trip law). -/
def annexBConcat (sc : List Nat) : List (List Nat) → List Nat
  | [] => []
  | n :: rest => sc ++ n ++ annexBConcat sc rest

/-- No two consecutive zero bytes occur in the list. -/
def noTwoZeros : List Nat → Bool
  | 0 :: 0 :: _ => false
  | _ :: rest => noTwoZeros rest
  | [] => true

/-- The list does not end in a zero byte (vacuously true when empty). -/
def endsNonZero : List Nat → Bool
  | [] => true
  | [0] => false
  | [_] => true
  | _ :: rest => endsNonZero rest

theorem noTwoZeros_tail {x : Nat} {l : List Nat} (h : noTwoZeros (x :: l) = true) :
    noTwoZeros l = true := by
  match x, l with
  | 0, 0 :: t => simp [noTwoZeros] at h
  | 0, [] => rfl
  | 0, (m+1) :: t => simpa [noTwoZeros] using h
  | m+1, l => simpa [noTwoZeros] using h

theorem endsNonZero_tail {x : Nat} {l : List Nat} (h : endsNonZero (x :: l) = true)
    (hl : l ≠ []) : endsNonZero l = true := by
  match l with
  | y :: t => simpa [endsNonZero] using h

theorem endsNonZero_single {x : Nat} (h : endsNonZero [x] = true) : x ≠ 0 := by
  intro hx
  subst hx
  simp [endsNonZero] at h

/-- A list without two consecutive zeros contains no start code. -/
theorem fsc_none_of_noTwoZeros : ∀ (n : List Nat), noTwoZeros n = true → fsc n = none
  | [], _ => rfl
  | [_], _ => rfl
  | [_, _], _ => rfl
  | x :: y :: z :: t, h => by
    have hxy : ¬(x = 0 ∧ y = 0) := by
      rintro ⟨rfl, rfl⟩
      simp [noTwoZeros] at h
    rw [fsc]
    rw [if_neg (by rintro ⟨rfl, rfl, -⟩; exact hxy ⟨rfl, rfl⟩)]
    rw [if_neg (by rintro ⟨rfl, rfl, -⟩; exact hxy ⟨rfl, rfl⟩)]
    rw [fsc_none_of_noTwoZeros (y :: z :: t) (noTwoZeros_tail h)]
    rfl

/-- A start code at the head is found at the head. -/
theorem fsc_startCode (sc r : List Nat) (hsc : sc = [0, 0, 1] ∨ sc = [0, 0, 0, 1]) :
    fsc (sc ++ r) = some (0, sc.length) := by
  rcases hsc with rfl | rfl
  · rw [List.cons_append, List.cons_append, List.cons_append, List.nil_append]
    rw [fsc, if_pos ⟨rfl, rfl, rfl⟩]
    rfl
  · rw [List.cons_append, List.cons_append, List.cons_append, List.cons_append,
      List.nil_append]
    rw [fsc]
    rw [if_neg (by simp), if_pos (by refine ⟨rfl, rfl, rfl, ?_, ?_⟩ <;> simp)]
    rfl

/-- Scanning a good NALU followed by a start code finds the start code
right after the NALU. -/
theorem fsc_good_append (n : List Nat) (sc r : List Nat)
    (hsc : sc = [0, 0, 1] ∨ sc = [0, 0, 0, 1])
    (h1 : noTwoZeros n = true) (h2 : endsNonZero n = true) :
    fsc (n ++ sc ++ r) = some (n.length, n.length + sc.length) := by
  induction n with
  | nil => simpa using fsc_startCode sc r hsc
  | cons x l ih =>
    match l with
    | [] =>
      have hx : x ≠ 0 := endsNonZero_single h2
      rcases hsc with rfl | rfl
      · rw [show ([x] ++ [0, 0, 1] ++ r) = x :: 0 :: 0 :: (1 :: r) by simp]
        rw [fsc]
        rw [if_neg (by rintro ⟨rfl, -, -⟩; exact hx rfl)]
        rw [if_neg (by rintro ⟨rfl, -, -, -, -⟩; exact hx rfl)]
        rw [show (0 :: 0 :: 1 :: r) = [0, 0, 1] ++ r by simp]
        rw [fsc_startCode [0, 0, 1] r (Or.inl rfl)]
        rfl
      · rw [show ([x] ++ [0, 0, 0, 1] ++ r) = x :: 0 :: 0 :: (0 :: 1 :: r) by simp]
        rw [fsc]
        rw [if_neg (by rintro ⟨rfl, -, -⟩; exact hx rfl)]
        rw [if_neg (by rintro ⟨rfl, -, -, -, -⟩; exact hx rfl)]
        rw [show (0 :: 0 :: 0 :: 1 :: r) = [0, 0, 0, 1] ++ r by simp]
        rw [fsc_startCode [0, 0, 0, 1] r (Or.inr rfl)]
        rfl
    | [y] =>
      have hy : y ≠ 0 := endsNonZero_single (endsNonZero_tail h2 (by simp))
      have hrec := ih (noTwoZeros_tail h1) (endsNonZero_tail h2 (by simp))
      rcases hsc with rfl | rfl
      · rw [show ([x, y] ++ [0, 0, 1] ++ r) = x :: y :: 0 :: (0 :: 1 :: r) by simp]
        rw [fsc]
        rw [if_neg (by rintro ⟨-, rfl, -⟩; exact hy rfl)]
        rw [if_neg (by rintro ⟨-, rfl, -, -, -⟩; exact hy rfl)]
        rw [show (y :: 0 :: 0 :: 1 :: r) = [y] ++ [0, 0, 1] ++ r by simp] at *
        rw [hrec]
        rfl
      · rw [show ([x, y] ++ [0, 0, 0, 1] ++ r) = x :: y :: 0 :: (0 :: 0 :: 1 :: r) by simp]
        rw [fsc]
        rw [if_neg (by rintro ⟨-, rfl, -⟩; exact hy rfl)]
        rw [if_neg (by rintro ⟨-, rfl, -, -, -⟩; exact hy rfl)]
        rw [show (y :: 0 :: 0 :: 0 :: 1 :: r) = [y] ++ [0, 0, 0, 1] ++ r by simp] at *
        rw [hrec]
        rfl
    | y :: z :: t =>
      have hxy : ¬(x = 0 ∧ y = 0) := by
        rintro ⟨rfl, rfl⟩
        simp [noTwoZeros] at h1
      have hrec := ih (noTwoZeros_tail h1) (endsNonZero_tail h2 (by simp))
      rw [show ((x :: y :: z :: t) ++ sc ++ r) = x :: y :: z :: (t ++ sc ++ r) by simp]
      rw [fsc]
      rw [if_neg (by rintro ⟨rfl, rfl, -⟩; exact hxy ⟨rfl, rfl⟩)]
      rw [if_neg (by rintro ⟨rfl, rfl, -⟩; exact hxy ⟨rfl, rfl⟩)]
      rw [show (y :: z :: (t ++ sc ++ r)) = (y :: z :: t) ++ sc ++ r by simp]
      rw [hrec]
      simp only [Option.map_some', Option.some.injEq, Prod.mk.injEq, List.length_cons]
      refine ⟨trivial, ?_⟩
      omega

/-- The structural split inverts `annexBConcat` on good NALUs. -/
theorem splitF_annexBConcat (sc : List Nat) (nalus : List (List Nat))
    (hsc : sc = [0, 0, 1] ∨ sc = [0, 0, 0, 1])
    (hgood : ∀ n ∈ nalus, n ≠ [] ∧ noTwoZeros n = true ∧ endsNonZero n = true) :
    splitF (annexBConcat sc nalus) = nalus := by
  induction nalus with
  | nil =>
    rw [annexBConcat]
    exact splitF_eq_of_none [] rfl
  | cons n rest ih =>
    obtain ⟨hn0, hn1, hn2⟩ := hgood n (by simp)
    rw [annexBConcat, List.append_assoc]
    have hfst : fsc (sc ++ (n ++ annexBConcat sc rest)) = some (0, sc.length) :=
      fsc_startCode sc _ hsc
    have hdropsc : (sc ++ (n ++ annexBConcat sc rest)).drop sc.length
        = n ++ annexBConcat sc rest := List.drop_left sc _
    cases rest with
    | nil =>
      have hsnd : fsc ((sc ++ (n ++ annexBConcat sc [])).drop sc.length) = none := by
        rw [hdropsc, annexBConcat, List.append_nil]
        exact fsc_none_of_noTwoZeros n hn1
      rw [splitF_eq_of_tail _ 0 sc.length hfst hsnd, hdropsc, annexBConcat, List.append_nil]
      rw [if_pos (by simpa [List.length_pos] using hn0)]
    | cons m rest' =>
      have henc : annexBConcat sc (m :: rest') = sc ++ (m ++ annexBConcat sc rest') := by
        rw [annexBConcat, List.append_assoc]
      have hsnd : fsc ((sc ++ (n ++ annexBConcat sc (m :: rest'))).drop sc.length)
          = some (n.length, n.length + sc.length) := by
        rw [hdropsc, annexBConcat]
        rw [show (n ++ (sc ++ m ++ annexBConcat sc rest')) = n ++ sc ++ (m ++ annexBConcat sc rest') by
          simp [List.append_assoc]]
        exact fsc_good_append n sc _ hsc hn1 hn2
      rw [splitF_eq_of_cons _ 0 sc.length n.length (n.length + sc.length) hfst hsnd, hdropsc]
      have htake : (n ++ annexBConcat sc (m :: rest')).take n.length = n := List.take_left n _
      have hdrop2 : (sc ++ (n ++ annexBConcat sc (m :: rest'))).drop (sc.length + n.length)
          = annexBConcat sc (m :: rest') := by
        rw [← List.append_assoc]
        rw [show sc.length + n.length = (sc ++ n).length by simp]
        exact List.drop_left _ _
      rw [htake, hdrop2, if_pos (by simpa [List.length_pos] using hn0)]
      rw [ih (fun x hx => hgood x (by simp [hx]))]
      rfl

/-- C7 counterexample: the round-trip law fails as stated for the non-empty
list of non-empty NALUs `[[0,0,1]]` — a NALU whose bytes themselves form a
start code is destroyed by re-splitting (the split returns `[]`). -/
theorem splitAnnexBNALUs_roundTrip_cex :
    ([[0, 0, 1]] : List (List Nat)) ≠ []
    ∧ (∀ n ∈ ([[0, 0, 1]] : List (List Nat)), n ≠ [])
    ∧ annexBConcat [0, 0, 1] [[0, 0, 1]] = [0, 0, 1, 0, 0, 1]
    ∧ splitAnnexBNALUs (annexBConcat [0, 0, 1] [[0, 0, 1]]) ≠ [[0, 0, 1]] := by
  refine ⟨by simp, by simp, by simp [annexBConcat], ?_⟩
  have h1 : fsc [0, 0, 1, 0, 0, 1] = some (0, 3) := by simp [fsc]
  have h2 : fsc (List.drop 3 [0, 0, 1, 0, 0, 1]) = some (0, 3) := by simp [fsc]
  have h3 : fsc (List.drop (3 + 0) [0, 0, 1, 0, 0, 1]) = some (0, 3) := by simp [fsc]
  have h4 : fsc (List.drop 3 (List.drop (3 + 0) [0, 0, 1, 0, 0, 1])) = none := by
    simp [fsc]
  have hval : splitAnnexBNALUs [0, 0, 1, 0, 0, 1] = [] := by
    rw [splitAnnexBNALUs, splitLoop_eq_splitF, List.drop_zero]
    rw [splitF_eq_of_cons _ 0 3 0 3 h1 h2]
    rw [splitF_eq_of_tail _ 0 3 h3 h4]
    simp
  intro hcontra
  rw [show annexBConcat [0, 0, 1] [[0, 0, 1]] = [0, 0, 1, 0, 0, 1] by simp [annexBConcat],
    hval] at hcontra
  exact absurd hcontra (by simp)

/-- C7 (amended): for a non-empty list of NALUs each of which is non-empty,
contains no two consecutive zero bytes, and does not end in a zero byte
(so that no start-code pattern can occur inside a NALU or across a
NALU/start-code boundary), `splitAnnexBNALUs` applied to the concatenation
of (start code ++ NALU) returns exactly the original list, for both the
3-byte `00 00 01` and the 4-byte `00 00 00 01` start codes. -/
theorem splitAnnexBNALUs_roundTrip (sc : List Nat) (nalus : List (List Nat))
    (hsc : sc = [0, 0, 1] ∨ sc = [0, 0, 0, 1]) (hne : nalus ≠ [])
    (hgood : ∀ n ∈ nalus, n ≠ [] ∧ noTwoZeros n = true ∧ endsNonZero n = true) :
    splitAnnexBNALUs (annexBConcat sc nalus) = nalus := by
  rw [splitAnnexBNALUs, splitLoop_eq_splitF, List.drop_zero]
  exact splitF_annexBConcat sc nalus hsc hgood

/-- Closed instance of `splitAnnexBNALUs_roundTrip`: two one-byte NALUs
with each start-code flavour. -/
theorem splitAnnexBNALUs_roundTrip_witness :
    splitAnnexBNALUs (annexBConcat [0, 0, 1] [[7], [8]]) = [[7], [8]]
    ∧ splitAnnexBNALUs (annexBConcat [0, 0, 0, 1] [[7], [8]]) = [[7], [8]] := by
  constructor
  · exact splitAnnexBNALUs_roundTrip [0, 0, 1] [[7], [8]] (Or.inl rfl) (by simp)
      (by decide)
  · exact splitAnnexBNALUs_roundTrip [0, 0, 0, 1] [[7], [8]] (Or.inr rfl) (by simp)
      (by decide)

/-! ## H.264 SPS dimension decoding (§4.3 of the spec) -/

/-- Embedding of `bitReader` (main.go:1100-1103): a byte slice and a bit
index. -/
structure BitReader where
  b : List Nat
  i : Nat
deriving DecidableEq

/-- One iteration of the loop in `bitReader.u` (main.go:1310-1326): check
`byteIndex >= len(br.b)` (fail), else extract bit `7 - i%8` of byte `i/8`
and advance the bit index. -/
def BitReader.readBit (br : BitReader) : Option (Nat × BitReader) :=
  if br.i / 8 < br.b.length then
    some ((br.b.getD (br.i / 8) 0 >>> (7 - br.i % 8)) &&& 1, ⟨br.b, br.i + 1⟩)
  else
    none

/-- The accumulator loop of `bitReader.u`: `v = (v << 1) | bit` in Go `uint`
(64-bit, wrapping) arithmetic. -/
def BitReader.uAux (br : BitReader) (v : Nat) : Nat → Option (Nat × BitReader)
  | 0 => some (v, br)
  | k + 1 =>
    match br.readBit with
    | none => none
    | some bb => BitReader.uAux bb.2 ((v <<< 1 ||| bb.1) % U64) k

/-- Embedding of `bitReader.u` (main.go:1310-1326): read `n` bits MSB-first;
`none` on running off the end of the buffer (Go returns `(0, false)`). -/
def BitReader.u (br : BitReader) (n : Nat) : Option (Nat × BitReader) :=
  br.uAux 0 n

/-- Embedding of `bitReader.skip` (main.go:1330). -/
def BitReader.skip (br : BitReader) (n : Nat) : Option BitReader :=
  (br.u n).map (·.2)

/-- The leading-zeros loop of `bitReader.ue` (main.go:1334-1347), made
structurally recursive on the number of unread bits: the loop consumes one
bit per iteration and `readBit` fails exactly when no bit is left, so
`8·len − i` bounds the zero run and the fuel can never run out before the
loop exits by itself. -/
def ueZerosAux : Nat → BitReader → Option (Nat × BitReader)
  | 0, _ => none
  | fuel + 1, br =>
    match br.readBit with
    | none => none
    | some bb =>
      if bb.1 = 0 then (ueZerosAux fuel bb.2).map (fun zr => (zr.1 + 1, zr.2))
      else some (0, bb.2)

/-- Leading-zero count of the Exp-Golomb code at the current position. -/
def BitReader.ueZeros (br : BitReader) : Option (Nat × BitReader) :=
  ueZerosAux (8 * br.b.length - br.i) br

/-- Embedding of `bitReader.ue` (main.go:1334-1355): unsigned Exp-Golomb.
`(1 << leadingZeros) - 1 + val` is computed in Go `uint` arithmetic (a shift
by ≥ 64 yields 0, subtraction and addition wrap). -/
def BitReader.ue (br : BitReader) : Option (Nat × BitReader) :=
  match br.ueZeros with
  | none => none
  | some zr =>
    if zr.1 = 0 then some (0, zr.2)
    else
      match zr.2.u zr.1 with
      | none => none
      | some vb => some (((1 <<< zr.1) % U64 + (U64 - 1) + vb.1) % U64, vb.2)

/-- Go's `int(x)` conversion of a `uint`: two's-complement reinterpretation. -/
def toInt64 (x : Nat) : Int :=
  if x % U64 < 9223372036854775808 then ((x % U64 : Nat) : Int)
  else ((x % U64 : Nat) : Int) - (U64 : Int)

/-- Wrapping 64-bit signed arithmetic (Go `int` overflow wraps around). -/
def wrapS64 (x : Int) : Int :=
  (x + 9223372036854775808) % (18446744073709551616 : Int) - 9223372036854775808

/-- Embedding of `bitReader.se` (main.go:1359-1369): signed Exp-Golomb.
`k := int(uev)`; Go's `/` and `%` on `int` truncate toward zero. -/
def BitReader.se (br : BitReader) : Option (Int × BitReader) :=
  match br.ue with
  | none => none
  | some ub =>
    let k : Int := toInt64 ub.1
    if Int.tmod k 2 = 0 then some (Int.tdiv (-k) 2, ub.2)
    else some (Int.tdiv (k + 1) 2, ub.2)

/-- The inner scaling-list loop (main.go:1176-1189): `size` iterations over
`lastScale`/`nextScale` with `nextScale = (lastScale + delta + 256) % 256`
in Go truncated `int` arithmetic. -/
def scalingListDeltaLoop (br : BitReader) (lastScale nextScale : Int) :
    Nat → Option BitReader
  | 0 => some br
  | j + 1 =>
    if nextScale ≠ 0 then
      match br.se with
      | none => none
      | some db =>
        let ns := Int.tmod (lastScale + db.1 + 256) 256
        scalingListDeltaLoop db.2 (if ns ≠ 0 then ns else lastScale) ns j
    else
      scalingListDeltaLoop br lastScale nextScale j

/-- The outer scaling-matrix loop (main.go:1164-1191): for each of `n` lists
read a presence flag and, when set, skip a scaling list of size 16 (lists
0-5) or 64 (lists 6+), starting from `lastScale = nextScale = 8`. -/
def scalingMatrixLoop (br : BitReader) (idx : Nat) : Nat → Option BitReader
  | 0 => some br
  | rem + 1 =>
    match br.u 1 with
    | none => none
    | some gb =>
      if gb.1 = 1 then
        match scalingListDeltaLoop gb.2 8 8 (if idx ≥ 6 then 64 else 16) with
        | none => none
        | some br2 => scalingMatrixLoop br2 (idx + 1) rem
      else
        scalingMatrixLoop gb.2 (idx + 1) rem

/-- The `pic_order_cnt_type = 1` loop (main.go:1222-1226): skip `n` signed
Exp-Golomb values. -/
def seSkipLoop (br : BitReader) : Nat → Option BitReader
  | 0 => some br
  | k + 1 =>
    match br.se with
    | none => none
    | some db => seSkipLoop db.2 k

/-- Emulation-prevention-byte removal (main.go:1112-1120): `00 00 03`
becomes `00 00`; applied to the bytes after the NAL header. -/
def stripEmulation : List Nat → List Nat
  | 0 :: 0 :: 3 :: rest => 0 :: 0 :: stripEmulation rest
  | x :: rest => x :: stripEmulation rest
  | [] => []

/-- The high-profile extension block (main.go:1135-1193):
`chroma_format_idc`, optional `separate_colour_plane_flag`, bit depths,
transform-bypass flag, and the optional scaling matrix. Returns the
`chroma_format_idc`. -/
def parseProfileExt (br : BitReader) : Option (Nat × BitReader) := do
  let (chromaFormatIDC, br) ← br.ue
  let br ← (if chromaFormatIDC = 3 then do
      let (_, br2) ← br.u 1
      pure br2
    else pure br)
  let (_, br) ← br.ue
  let (_, br) ← br.ue
  let br ← br.skip 1
  let (f, br) ← br.u 1
  let br ← (if f = 1 then
      scalingMatrixLoop br 0 (if chromaFormatIDC = 3 then 12 else 8)
    else pure br)
  pure (chromaFormatIDC, br)

/-- The `pic_order_cnt_type` block (main.go:1199-1227). -/
def parsePOC (br : BitReader) : Option BitReader := do
  let (pct, br) ← br.ue
  if pct = 0 then do
    let (_, br2) ← br.ue
    pure br2
  else if pct = 1 then do
    let br2 ← br.skip 1
    let (_, br3) ← br2.se
    let (_, br4) ← br3.se
    let (n, br5) ← br4.ue
    seSkipLoop br5 n
  else
    pure br

/-- The frame-cropping block (main.go:1259-1278): a presence flag and four
crop offsets (all zero when absent). -/
def parseCropOffsets (br : BitReader) :
    Option (Nat × Nat × Nat × Nat × BitReader) := do
  let (fcrop, br) ← br.u 1
  if fcrop = 1 then do
    let (cl, br1) ← br.ue
    let (cr, br2) ← br1.ue
    let (ct, br3) ← br2.ue
    let (cb, br4) ← br3.ue
    pure (cl, cr, ct, cb, br4)
  else
    pure (0, 0, 0, 0, br)

/-- The body of `parseH264SPSDimensions` (main.go:1121-1299) on the RBSP
bytes, up to but excluding the final bounds check: parses all SPS fields
and computes the signed `width`/`height` in Go `uint`/`int` arithmetic. -/
def parseH264SPSDimensionsCore (rbsp : List Nat) : Option (Int × Int) := do
  let br0 : BitReader := ⟨rbsp, 0⟩
  let br1 ← br0.skip 24
  let (_, br2) ← br1.ue
  let profileIDC := rbsp.headD 0
  let (chromaFormatIDC, br3) ←
    if profileIDC = 100 ∨ profileIDC = 110 ∨ profileIDC = 122 ∨ profileIDC = 244 ∨
        profileIDC = 44 ∨ profileIDC = 83 ∨ profileIDC = 86 ∨ profileIDC = 118 ∨
        profileIDC = 128 ∨ profileIDC = 138 ∨ profileIDC = 139 ∨ profileIDC = 134 then
      parseProfileExt br2
    else
      pure (1, br2)
  let (_, br4) ← br3.ue
  let br5 ← parsePOC br4
  let (_, br6) ← br5.ue
  let br7 ← br6.skip 1
  let (pwMinus1, br8) ← br7.ue
  let (phMinus1, br9) ← br8.ue
  let (frameMbsOnlyFlag, br10) ← br9.u 1
  let br11 ← (if frameMbsOnlyFlag = 0 then br10.skip 1 else pure br10)
  let br12 ← br11.skip 1
  let (cropLeft, cropRight, cropTop, cropBottom, _) ← parseCropOffsets br12
  let mbWidth := (pwMinus1 + 1) % U64
  let mbHeight := ((phMinus1 + 1) % U64 * (2 - frameMbsOnlyFlag)) % U64
  let subW : Nat := match chromaFormatIDC with
    | 0 => 1 | 1 => 2 | 2 => 2 | 3 => 1 | _ => 1
  let subH : Nat := match chromaFormatIDC with
    | 0 => 1 | 1 => 2 | 2 => 1 | 3 => 1 | _ => 1
  let cropUnitX := subW
  let cropUnitY := (subH * (2 - frameMbsOnlyFlag)) % U64
  let width := wrapS64 (toInt64 ((mbWidth * 16) % U64)
    - toInt64 (((cropLeft + cropRight) % U64 * cropUnitX) % U64))
  let height := wrapS64 (toInt64 ((mbHeight * 16) % U64)
    - toInt64 (((cropTop + cropBottom) % U64 * cropUnitY) % U64))
  pure (width, height)

/-- Embedding of `parseH264SPSDimensions` (main.go:1107-1305): `none`
corresponds to Go's `ok = false`. -/
def parseH264SPSDimensions (nal : List Nat) : Option (Nat × Nat) :=
  if nal.length < 4 ∨ (nal.headD 0) &&& 31 ≠ 7 then none
  else
    match parseH264SPSDimensionsCore (stripEmulation (nal.drop 1)) with
    | none => none
    | some wh =>
      if wh.1 ≤ 0 ∨ wh.2 ≤ 0 ∨ wh.1 > 65535 ∨ wh.2 > 65535 then none
      else some (wh.1.toNat % U16, wh.2.toNat % U16)

/-- C4: `parseH264SPSDimensions` is a total function (every bit access goes
through the bounds-checked reader and every loop is bounded by the bit
count, so the embedding needs no partiality); it rejects inputs shorter
than 4 bytes and inputs whose first byte's low 5 bits are not 7; and it
returns a result only when the computed width and height both lie in
`(0, 65535]`. -/
theorem parseH264SPSDimensions_safe (nal : List Nat) :
    (nal.length < 4 → parseH264SPSDimensions nal = none)
    ∧ ((nal.headD 0) &&& 31 ≠ 7 → parseH264SPSDimensions nal = none)
    ∧ (∀ w h, parseH264SPSDimensions nal = some (w, h) →
        0 < w ∧ w ≤ 65535 ∧ 0 < h ∧ h ≤ 65535) := by
  refine ⟨?_, ?_, ?_⟩
  · intro h
    rw [parseH264SPSDimensions, if_pos (Or.inl h)]
  · intro h
    rw [parseH264SPSDimensions, if_pos (Or.inr h)]
  · intro w h hsome
    rw [parseH264SPSDimensions] at hsome
    split at hsome
    · exact absurd hsome (by simp)
    · split at hsome
      · exact absurd hsome (by simp)
      · next wh _ =>
        split at hsome
        · exact absurd hsome (by simp)
        · next hbound =>
          simp only [Option.some.injEq, Prod.mk.injEq] at hsome
          push_neg at hbound
          obtain ⟨hw0, hh0, hw1, hh1⟩ := hbound
          obtain ⟨hw, hh⟩ := hsome
          unfold U16 at hw hh
          omega

/-- Closed instance of `parseH264SPSDimensions_safe`: a rejected short
input, a rejected non-SPS input, and a 6-byte baseline-profile SPS
(profile 66, 2×2 macroblocks, no cropping) accepted with both dimensions
in range. -/
theorem parseH264SPSDimensions_safe_witness :
    parseH264SPSDimensions [103, 66] = none
    ∧ parseH264SPSDimensions [104, 66, 0, 30, 249, 41] = none
    ∧ (0 < 32 ∧ 32 ≤ 65535 ∧ 0 < 32 ∧ 32 ≤ 65535) := by
  refine ⟨(parseH264SPSDimensions_safe [103, 66]).1 (by decide),
    (parseH264SPSDimensions_safe [104, 66, 0, 30, 249, 41]).2.1 (by decide),
    (parseH264SPSDimensions_safe [103, 66, 0, 30, 249, 41]).2.2 32 32 (by decide)⟩

/-! ## The main video loop's keyframe gate (§4.4, §4.5 of the spec) -/

/-- Embedding of `naluType` (main.go:1082-1087). -/
def naluType (n : List Nat) : Nat :=
  match n with
  | [] => 0
  | x :: _ => x &&& 31

/-- The package-scope stream state of main.go (lines 360-392) that the
video loop, `/offer` handler and RTCP reader mutate. -/
structure StreamState where
  needKeyframe : Bool
  lastSPS : List Nat
  lastPPS : List Nat
  framesSinceKF : Nat
  auSeq : Nat
  havePTS0 : Bool
  pts0 : Nat
  rtpTS0 : Nat
  videoW : Nat
  videoH : Nat
deriving DecidableEq

/-- Accumulator of the per-NALU scan (main.go:184-218). -/
structure ScanAcc where
  st : StreamState
  gotNewSPS : Bool
  idrInThisAU : Bool
deriving DecidableEq

/-- One step of the `for _, n := range nalus` switch (main.go:188-218):
SPS NALUs refresh the cached dimensions when the bytes changed and parse,
and always refresh `lastSPS`; PPS NALUs refresh `lastPPS`; type-5 NALUs
mark the AU as containing an IDR. -/
def scanNALU (acc : ScanAcc) (n : List Nat) : ScanAcc :=
  if naluType n = 7 then
    let upd :=
      if acc.st.lastSPS ≠ n then
        match parseH264SPSDimensions n with
        | some wh =>
          { acc with st := { acc.st with videoW := wh.1, videoH := wh.2 }, gotNewSPS := true }
        | none => acc
      else acc
    { upd with st := { upd.st with lastSPS := n } }
  else if naluType n = 8 then
    { acc with st := { acc.st with lastPPS := n } }
  else if naluType n = 5 then
    { acc with idrInThisAU := true }
  else
    acc

/-- What one iteration of the video loop emits: the `pushToRTPChannel`
calls in order, and how many `RequestKeyframe` control requests it issues. -/
structure FrameOutput where
  pushes : List RtpPayload
  kfRequests : Nat
deriving DecidableEq

/-- Embedding of one iteration of the frame loop of `runAndroidStreaming`
after the RTP timestamp is assigned (main.go:180-328, §8.4-§8.8): the NALU
scan, the new-SPS handling, the keyframe-wait gate and the AU delivery.
Returns the updated stream state and the emitted payloads/requests. -/
def frameLoopIteration (st : StreamState) (nalus : List (List Nat)) (curTS : Nat) :
    StreamState × FrameOutput :=
  let acc := nalus.foldl scanNALU ⟨st, false, false⟩
  let waitKF0 := acc.st.needKeyframe
  let sps := acc.st.lastSPS
  let pps := acc.st.lastPPS
  let newSPSPushes : List RtpPayload :=
    if acc.gotNewSPS then
      (if sps ≠ [] then [⟨[sps], curTS, false⟩] else [])
        ++ (if pps ≠ [] then [⟨[pps], curTS, false⟩] else [])
    else []
  let newSPSReqs : Nat := if acc.gotNewSPS then 1 else 0
  let st1 : StreamState := if acc.gotNewSPS then { acc.st with needKeyframe := true } else acc.st
  let waitKF : Bool := if acc.gotNewSPS then true else waitKF0
  if waitKF then
    let paramPushes : List RtpPayload :=
      if sps ≠ [] ∧ pps ≠ [] then [⟨[sps], curTS, false⟩, ⟨[pps], curTS, false⟩] else []
    let paramReqs : Nat := if sps ≠ [] ∧ pps ≠ [] then 0 else 1
    let st2 : StreamState := { st1 with framesSinceKF := st1.framesSinceKF + 1 }
    let tickReqs := if st2.framesSinceKF % 30 = 0 then 1 else 0
    if acc.idrInThisAU then
      ({ st2 with needKeyframe := false, framesSinceKF := 0, auSeq := st2.auSeq + 1 },
       ⟨newSPSPushes ++ paramPushes ++ [⟨nalus, curTS, true⟩],
        newSPSReqs + paramReqs + tickReqs⟩)
    else
      ({ st2 with auSeq := st2.auSeq + 1 },
       ⟨newSPSPushes ++ paramPushes, newSPSReqs + paramReqs + tickReqs⟩)
  else
    ({ st1 with auSeq := st1.auSeq + 1 },
     ⟨newSPSPushes ++ [⟨nalus, curTS, true⟩], newSPSReqs⟩)

/-- The stream-state reset performed by `handleOffer` after the SDP answer
is ready (main.go:941-956). -/
def handleOfferReset (st : StreamState) : StreamState :=
  { st with needKeyframe := true, auSeq := 0, havePTS0 := false, pts0 := 0, rtpTS0 := 0 }

/-- The per-frame timestamp assignment of the video loop (main.go:156-164,
§8.2): the first frame after the base is cleared records `pts0 = pts`,
`rtpTS0 = 0`; every frame gets `curTS = rtpTS0 + rtpTSFromPTS(pts, pts0)`
in `uint32` arithmetic. -/
def assignFrameTS (st : StreamState) (pts : Nat) : StreamState × Nat :=
  let st1 := if ¬st.havePTS0 then { st with pts0 := pts, rtpTS0 := 0, havePTS0 := true } else st
  (st1, (st1.rtpTS0 + rtpTSFromPTS pts st1.pts0) % U32)

theorem scanNALU_preserves (acc : ScanAcc) (n : List Nat) :
    (scanNALU acc n).st.needKeyframe = acc.st.needKeyframe
    ∧ (scanNALU acc n).st.framesSinceKF = acc.st.framesSinceKF := by
  unfold scanNALU
  by_cases h1 : naluType n = 7
  · rw [if_pos h1]
    by_cases h2 : acc.st.lastSPS ≠ n
    · rw [if_pos h2]
      cases parseH264SPSDimensions n <;> exact ⟨rfl, rfl⟩
    · rw [if_neg h2]
      exact ⟨rfl, rfl⟩
  · rw [if_neg h1]
    by_cases h2 : naluType n = 8
    · rw [if_pos h2]
      exact ⟨rfl, rfl⟩
    · rw [if_neg h2]
      by_cases h3 : naluType n = 5
      · rw [if_pos h3]
        exact ⟨rfl, rfl⟩
      · rw [if_neg h3]
        exact ⟨rfl, rfl⟩

theorem scanNALU_idr (acc : ScanAcc) (n : List Nat) :
    (scanNALU acc n).idrInThisAU = (acc.idrInThisAU || (naluType n == 5)) := by
  unfold scanNALU
  by_cases h1 : naluType n = 7
  · rw [if_pos h1]
    have h5 : (naluType n == 5) = false := by simp [h1]
    rw [h5, Bool.or_false]
    by_cases h2 : acc.st.lastSPS ≠ n
    · rw [if_pos h2]
      cases parseH264SPSDimensions n <;> rfl
    · rw [if_neg h2]
  · rw [if_neg h1]
    by_cases h2 : naluType n = 8
    · rw [if_pos h2]
      have h5 : (naluType n == 5) = false := by simp [h2]
      rw [h5, Bool.or_false]
    · rw [if_neg h2]
      by_cases h3 : naluType n = 5
      · rw [if_pos h3]
        have h5 : (naluType n == 5) = true := by simp [h3]
        rw [h5, Bool.or_true]
      · rw [if_neg h3]
        have h5 : (naluType n == 5) = false := by simp [h3]
        rw [h5, Bool.or_false]

theorem scanFold_preserves (nalus : List (List Nat)) (acc : ScanAcc) :
    (nalus.foldl scanNALU acc).st.needKeyframe = acc.st.needKeyframe
    ∧ (nalus.foldl scanNALU acc).st.framesSinceKF = acc.st.framesSinceKF := by
  induction nalus generalizing acc with
  | nil => exact ⟨rfl, rfl⟩
  | cons n rest ih =>
    simp only [List.foldl_cons]
    have h := scanNALU_preserves acc n
    have h2 := ih (scanNALU acc n)
    exact ⟨h2.1.trans h.1, h2.2.trans h.2⟩

theorem scanFold_idr (nalus : List (List Nat)) (acc : ScanAcc) :
    (nalus.foldl scanNALU acc).idrInThisAU
      = (acc.idrInThisAU || nalus.any (fun n => naluType n == 5)) := by
  induction nalus generalizing acc with
  | nil => simp
  | cons n rest ih =>
    simp only [List.foldl_cons, List.any_cons]
    rw [ih, scanNALU_idr, Bool.or_assoc]

/-- C2: while `needKeyframe` is set, one loop iteration never pushes an
access-unit payload unless the AU holds a type-5 NALU; an AU holding a
type-5 NALU is delivered and clears `needKeyframe`, resetting
`framesSinceKF` to 0; and whenever the incremented `framesSinceKF` counter
hits a multiple of 30 an additional keyframe request is issued. -/
theorem keyframeGate_correct (st : StreamState) (nalus : List (List Nat)) (curTS : Nat)
    (hwait : st.needKeyframe = true) :
    (∀ p ∈ (frameLoopIteration st nalus curTS).2.pushes,
        p.isAccessUnit = true → ∃ n ∈ nalus, naluType n = 5)
    ∧ ((∃ n ∈ nalus, naluType n = 5) →
        (RtpPayload.mk nalus curTS true) ∈ (frameLoopIteration st nalus curTS).2.pushes
        ∧ (frameLoopIteration st nalus curTS).1.needKeyframe = false
        ∧ (frameLoopIteration st nalus curTS).1.framesSinceKF = 0)
    ∧ ((st.framesSinceKF + 1) % 30 = 0 →
        1 ≤ (frameLoopIteration st nalus curTS).2.kfRequests) := by
  have hpres := scanFold_preserves nalus ⟨st, false, false⟩
  have hidr := scanFold_idr nalus ⟨st, false, false⟩
  unfold frameLoopIteration
  generalize hacc : nalus.foldl scanNALU ⟨st, false, false⟩ = acc at hpres hidr ⊢
  obtain ⟨acst, agot, aidr⟩ := acc
  simp only [Bool.false_or] at hpres hidr
  have hnk : acst.needKeyframe = true := hpres.1.trans hwait
  have hfk : acst.framesSinceKF = st.framesSinceKF := hpres.2
  have hexists : aidr = true ↔ ∃ n ∈ nalus, naluType n = 5 := by
    rw [hidr, List.any_eq_true]
    constructor
    · rintro ⟨n, hn, he⟩
      exact ⟨n, hn, by simpa using he⟩
    · rintro ⟨n, hn, he⟩
      exact ⟨n, hn, by simpa using he⟩
  clear hacc hpres hidr
  cases agot <;> cases aidr <;>
    simp only [hnk, Bool.false_eq_true, reduceIte] <;> refine ⟨?_, ?_, ?_⟩
  · intro p hp hau
    split_ifs at hp <;> simp_all <;>
      first
      | (rcases hp with rfl | rfl <;> simp at hau)
      | (rcases hp with rfl | rfl | rfl | rfl <;> simp at hau)
  · intro hex
    exact absurd (hexists.mpr hex) (by simp)
  · intro h30
    split_ifs <;> simp_all
  · intro p hp hau
    exact hexists.mp rfl
  · intro hex
    exact ⟨by simp, by simp, by simp⟩
  · intro h30
    split_ifs <;> simp_all
  · intro p hp hau
    split_ifs at hp <;> simp_all <;>
      first
      | (rcases hp with rfl | rfl <;> simp at hau)
      | (rcases hp with rfl | rfl | rfl | rfl <;> simp at hau)
  · intro hex
    exact absurd (hexists.mpr hex) (by simp)
  · intro h30
    split_ifs <;> simp_all
  · intro p hp hau
    exact hexists.mp rfl
  · intro hex
    exact ⟨by simp, by simp, by simp⟩
  · intro h30
    split_ifs <;> simp_all

/-- Closed instance of `keyframeGate_correct`: a waiting stream at 29
frames since the keyframe request receives an AU holding an IDR NALU
(type 5): the AU is delivered, the wait ends, the counter resets, and the
30-frame tick re-issues a request. -/
theorem keyframeGate_correct_witness :
    (StreamState.mk true [] [] 29 0 false 0 0 0 0).needKeyframe = true
    ∧ RtpPayload.mk [[101]] 0 true
        ∈ (frameLoopIteration (StreamState.mk true [] [] 29 0 false 0 0 0 0) [[101]] 0).2.pushes
    ∧ (frameLoopIteration (StreamState.mk true [] [] 29 0 false 0 0 0 0) [[101]]
        0).1.needKeyframe = false
    ∧ (frameLoopIteration (StreamState.mk true [] [] 29 0 false 0 0 0 0) [[101]]
        0).1.framesSinceKF = 0
    ∧ 1 ≤ (frameLoopIteration (StreamState.mk true [] [] 29 0 false 0 0 0 0) [[101]]
        0).2.kfRequests := by
  have h := keyframeGate_correct (StreamState.mk true [] [] 29 0 false 0 0 0 0) [[101]] 0 rfl
  have h2 := h.2.1 ⟨[101], by simp, by decide⟩
  exact ⟨rfl, h2.1, h2.2.1, h2.2.2, h.2.2 (by decide)⟩

/-- C8 (amended): while waiting for a keyframe, on each AU the loop pushes
the cached SPS and the cached PPS as independent non-AU payloads sharing
the AU's timestamp whenever BOTH parameter sets are cached; when at least
one of the two is missing, nothing is pushed for them and a keyframe
request is issued instead. -/
theorem needsKeyframe_paramSets (st : StreamState) (nalus : List (List Nat)) (curTS : Nat)
    (hwait : st.needKeyframe = true) :
    ((frameLoopIteration st nalus curTS).1.lastSPS ≠ [] →
      (frameLoopIteration st nalus curTS).1.lastPPS ≠ [] →
      RtpPayload.mk [(frameLoopIteration st nalus curTS).1.lastSPS] curTS false
          ∈ (frameLoopIteration st nalus curTS).2.pushes
        ∧ RtpPayload.mk [(frameLoopIteration st nalus curTS).1.lastPPS] curTS false
          ∈ (frameLoopIteration st nalus curTS).2.pushes)
    ∧ (((frameLoopIteration st nalus curTS).1.lastSPS = []
        ∨ (frameLoopIteration st nalus curTS).1.lastPPS = []) →
        1 ≤ (frameLoopIteration st nalus curTS).2.kfRequests) := by
  have hpres := scanFold_preserves nalus ⟨st, false, false⟩
  unfold frameLoopIteration
  generalize hacc : nalus.foldl scanNALU ⟨st, false, false⟩ = acc at hpres ⊢
  obtain ⟨acst, agot, aidr⟩ := acc
  have hnk : acst.needKeyframe = true := hpres.1.trans hwait
  clear hacc hpres
  cases agot <;> cases aidr <;>
    simp only [hnk, Bool.false_eq_true, reduceIte] <;> refine ⟨?_, ?_⟩ <;>
    [skip; skip; skip; skip; skip; skip; skip; skip]
  all_goals
    first
    | (intro hs hp
       constructor <;> (split_ifs <;> simp_all))
    | (intro hor
       have hno : ¬(acst.lastSPS ≠ [] ∧ acst.lastPPS ≠ []) := by
         rcases hor with h | h <;> simp [h]
       split_ifs <;> simp_all <;> omega)

/-- C8 counterexample: with the SPS cached but no PPS cached, a waiting
stream receiving a non-IDR AU pushes NOTHING (the claim as stated says the
cached SPS alone should be pushed); the loop requests a keyframe instead. -/
theorem needsKeyframe_paramSets_cex :
    (StreamState.mk true [103] [] 0 0 false 0 0 0 0).needKeyframe = true
    ∧ (StreamState.mk true [103] [] 0 0 false 0 0 0 0).lastSPS ≠ []
    ∧ (frameLoopIteration (StreamState.mk true [103] [] 0 0 false 0 0 0 0) [[65]]
        0).2.pushes = []
    ∧ (frameLoopIteration (StreamState.mk true [103] [] 0 0 false 0 0 0 0) [[65]]
        0).2.kfRequests = 1 := by
  refine ⟨rfl, by simp, by decide, by decide⟩

/-- Closed instance of `needsKeyframe_paramSets`: with both parameter sets
cached, both are pushed as non-AU payloads at the AU's timestamp. -/
theorem needsKeyframe_paramSets_witness :
    RtpPayload.mk [(frameLoopIteration (StreamState.mk true [103] [104] 0 0 false 0 0 0 0)
        [[65]] 9).1.lastSPS] 9 false
      ∈ (frameLoopIteration (StreamState.mk true [103] [104] 0 0 false 0 0 0 0)
        [[65]] 9).2.pushes
    ∧ RtpPayload.mk [(frameLoopIteration (StreamState.mk true [103] [104] 0 0 false 0 0 0 0)
        [[65]] 9).1.lastPPS] 9 false
      ∈ (frameLoopIteration (StreamState.mk true [103] [104] 0 0 false 0 0 0 0)
        [[65]] 9).2.pushes := by
  have h := (needsKeyframe_paramSets (StreamState.mk true [103] [104] 0 0 false 0 0 0 0)
    [[65]] 9 rfl).1 (by decide) (by decide)
  exact ⟨h.1, h.2⟩

/-- C10: a successful /offer resets the stream state before returning the
answer — `needKeyframe` set, `auSeq` zeroed, the PTS base cleared — so the
first frame processed afterwards becomes the new timestamp base and is
assigned RTP timestamp 0, whatever base was established before. -/
theorem handleOffer_resets_stream (st : StreamState) (pts : Nat) (hp : pts < U64) :
    (handleOfferReset st).needKeyframe = true
    ∧ (handleOfferReset st).auSeq = 0
    ∧ (handleOfferReset st).havePTS0 = false
    ∧ (handleOfferReset st).pts0 = 0
    ∧ (handleOfferReset st).rtpTS0 = 0
    ∧ (assignFrameTS (handleOfferReset st) pts).1.pts0 = pts
    ∧ (assignFrameTS (handleOfferReset st) pts).1.havePTS0 = true
    ∧ (assignFrameTS (handleOfferReset st) pts).2 = 0 := by
  have h0 : rtpTSFromPTS pts pts = 0 := by
    unfold rtpTSFromPTS ptsPerSecond
    rw [wrapSub_eq pts pts hp le_rfl]
    simp
  refine ⟨rfl, rfl, rfl, rfl, rfl, by simp [assignFrameTS, handleOfferReset],
    by simp [assignFrameTS, handleOfferReset], ?_⟩
  simp [assignFrameTS, handleOfferReset, h0]

/-- Closed instance of `handleOffer_resets_stream`: a stream that already
had a different base (`pts0 = 3`, `auSeq = 7`) is reset by the offer and
the next frame (PTS 5) gets RTP timestamp 0. -/
theorem handleOffer_resets_stream_witness :
    (5 : Nat) < U64
    ∧ (assignFrameTS (handleOfferReset (StreamState.mk false [] [] 0 7 true 3 9 0 0)) 5).2 = 0
    ∧ (assignFrameTS (handleOfferReset (StreamState.mk false [] [] 0 7 true 3 9 0 0)) 5).1.pts0
      = 5 := by
  have h := handleOffer_resets_stream (StreamState.mk false [] [] 0 7 true 3 9 0 0) 5
    (by unfold U64; norm_num)
  exact ⟨by unfold U64; norm_num, h.2.2.2.2.2.2.2, h.2.2.2.2.2.1⟩

/-! ## RTP sending and the marker policy (§4.6 of the spec) -/

/-- The two fields of an outgoing `rtp.Packet` that the send paths set
explicitly, plus its payload. -/
structure RTPPacket where
  timestamp : Nat
  marker : Bool
  payload : List Nat
deriving DecidableEq

/-- Embedding of `sendNALUAccessUnitAtTS` (main.go:988-1009), parameterised
by the pion packetizer's payload splitter `packetize` (`pk.Packetize(n, 0)`
with the timestamp overridden by hand): for NALU `i` and its packet `j`,
`p.Timestamp = ts` and `p.Marker = (i == len(nalus)-1) && (j == len(pkts)-1)`.
Empty NALUs are skipped; a nil packetizer/track or empty AU writes
nothing. Returns the packets written to the track in order. -/
def sendNALUAccessUnitAtTS (packetize : List Nat → List (List Nat))
    (nalus : List (List Nat)) (ts : Nat) : List RTPPacket :=
  if nalus = [] then []
  else
    (nalus.enum.map (fun en =>
      if en.2 = [] then []
      else
        (packetize en.2).enum.map (fun ep =>
          RTPPacket.mk ts
            (decide (en.1 = nalus.length - 1) && decide (ep.1 = (packetize en.2).length - 1))
            ep.2))).flatten

/-- Embedding of `sendNALUsAtTS` (main.go:1013-1034): the non-AU path used
for SPS/PPS; every packet written has `Marker = false`. -/
def sendNALUsAtTS (packetize : List Nat → List (List Nat)) (ts : Nat)
    (nalus : List (List Nat)) : List RTPPacket :=
  (nalus.map (fun n =>
    if n = [] then []
    else (packetize n).map (fun pl => RTPPacket.mk ts false pl))).flatten

theorem sendAU_decomp (packetize : List Nat → List (List Nat))
    (nalus : List (List Nat)) (ts : Nat)
    (hne : nalus ≠ []) (hnn : ∀ n ∈ nalus, n ≠ [])
    (hpk : ∀ n, n ≠ [] → packetize n ≠ []) :
    ∃ A plast, sendNALUAccessUnitAtTS packetize nalus ts = A ++ [plast]
      ∧ plast.marker = true ∧ plast.timestamp = ts
      ∧ ∀ q ∈ A, q.marker = false := by
  obtain ⟨front, lastn, rfl⟩ : ∃ L b, nalus = L ++ [b] :=
    ⟨nalus.dropLast, nalus.getLast hne, (List.dropLast_append_getLast hne).symm⟩
  have hlastn : lastn ≠ [] := hnn lastn (by simp)
  have hpkts : packetize lastn ≠ [] := hpk lastn hlastn
  obtain ⟨pf, pl, hpf⟩ : ∃ L b, packetize lastn = L ++ [b] :=
    ⟨(packetize lastn).dropLast, (packetize lastn).getLast hpkts,
      (List.dropLast_append_getLast hpkts).symm⟩
  have hN : (front ++ [lastn]).length - 1 = front.length := by simp
  have hL : (packetize lastn).length - 1 = pf.length := by simp [hpf]
  have henum : (packetize lastn).enum = pf.enum ++ [(pf.length, pl)] := by
    conv_lhs => rw [hpf]
    rw [List.enum_append]
    simp [List.enumFrom]
  refine ⟨(front.enum.map (fun en =>
      if en.2 = [] then []
      else (packetize en.2).enum.map (fun ep =>
        RTPPacket.mk ts
          (decide (en.1 = (front ++ [lastn]).length - 1)
            && decide (ep.1 = (packetize en.2).length - 1)) ep.2))).flatten
    ++ pf.enum.map (fun ep =>
        RTPPacket.mk ts
          (decide (front.length = (front ++ [lastn]).length - 1)
            && decide (ep.1 = (packetize lastn).length - 1)) ep.2),
    RTPPacket.mk ts true pl, ?_, rfl, rfl, ?_⟩
  · rw [sendNALUAccessUnitAtTS, if_neg hne]
    rw [List.enum_append]
    rw [show List.enumFrom front.length [lastn] = [(front.length, lastn)] from by
      simp [List.enumFrom]]
    rw [List.map_append, List.flatten_append, List.append_assoc]
    refine congrArg (_ ++ ·) ?_
    simp only [List.map_cons, List.map_nil, List.flatten_cons, List.flatten_nil, List.append_nil]
    rw [if_neg hlastn, henum, List.map_append]
    refine congrArg (_ ++ ·) ?_
    simp only [List.map_cons, List.map_nil]
    refine congrArg (fun m => [m]) ?_
    simp [hN, hL]
  · intro q hq
    rw [List.mem_append] at hq
    rcases hq with hq | hq
    · rw [List.mem_flatten] at hq
      obtain ⟨block, hblock, hqin⟩ := hq
      rw [List.mem_map] at hblock
      obtain ⟨en, hen, rfl⟩ := hblock
      obtain ⟨i, m⟩ := en
      have hlt : i < front.length := by
        have := (List.mem_enumFrom hen).2.1
        omega
      split_ifs at hqin
      · simp at hqin
      · rw [List.mem_map] at hqin
        obtain ⟨ep, hep, rfl⟩ := hqin
        have hne2 : ¬(i = (front ++ [lastn]).length - 1) := by
          rw [hN]
          omega
        simp only [List.length_append, List.length_singleton] at hne2 ⊢
        simp [hne2]
        omega
    · rw [List.mem_map] at hq
      obtain ⟨ep, hep, rfl⟩ := hq
      obtain ⟨j, m⟩ := ep
      have hlt : j < pf.length := by
        have := (List.mem_enumFrom hep).2.1
        omega
      have hne2 : ¬(j = (packetize lastn).length - 1) := by
        rw [hL]
        omega
      simp [hne2]

/-- C1: for a non-empty AU of non-empty NALUs sent through an active
packetizer and track, all RTP packets written by `sendNALUAccessUnitAtTS`
carry the AU's timestamp; exactly one has Marker=true and it is the very
last packet written (the last packet of the last NALU); and every packet
written by `sendNALUsAtTS` (the non-AU SPS/PPS path) has Marker=false. -/
theorem marker_policy (packetize : List Nat → List (List Nat))
    (nalus : List (List Nat)) (ts : Nat)
    (hne : nalus ≠ []) (hnn : ∀ n ∈ nalus, n ≠ [])
    (hpk : ∀ n, n ≠ [] → packetize n ≠ []) :
    (∀ p ∈ sendNALUAccessUnitAtTS packetize nalus ts, p.timestamp = ts)
    ∧ (∃ A plast, sendNALUAccessUnitAtTS packetize nalus ts = A ++ [plast]
        ∧ plast.marker = true ∧ (∀ q ∈ A, q.marker = false))
    ∧ ((sendNALUAccessUnitAtTS packetize nalus ts).filter (fun p => p.marker)).length = 1
    ∧ (∀ p ∈ sendNALUsAtTS packetize ts nalus, p.marker = false ∧ p.timestamp = ts) := by
  obtain ⟨A, plast, hdec, hm, hts, hfalse⟩ := sendAU_decomp packetize nalus ts hne hnn hpk
  refine ⟨?_, ⟨A, plast, hdec, hm, hfalse⟩, ?_, ?_⟩
  · intro p hp
    rw [sendNALUAccessUnitAtTS, if_neg hne, List.mem_flatten] at hp
    obtain ⟨block, hblock, hpin⟩ := hp
    rw [List.mem_map] at hblock
    obtain ⟨en, hen, rfl⟩ := hblock
    split_ifs at hpin
    · simp at hpin
    · rw [List.mem_map] at hpin
      obtain ⟨ep, hep, rfl⟩ := hpin
      rfl
  · rw [hdec, List.filter_append]
    have h1 : A.filter (fun p => p.marker) = [] := by
      rw [List.filter_eq_nil]
      intro a ha
      simp [hfalse a ha]
    rw [h1]
    simp [hm]
  · intro p hp
    rw [sendNALUsAtTS, List.mem_flatten] at hp
    obtain ⟨block, hblock, hpin⟩ := hp
    rw [List.mem_map] at hblock
    obtain ⟨n, hn, rfl⟩ := hblock
    split_ifs at hpin
    · simp at hpin
    · rw [List.mem_map] at hpin
      obtain ⟨ple, hple, rfl⟩ := hpin
      exact ⟨rfl, rfl⟩

/-- Closed instance of `marker_policy`: a three-NALU AU through a
single-packet packetizer has exactly one marker, and the SPS/PPS path
writes only unmarked packets. -/
theorem marker_policy_witness :
    (([[7], [8], [5, 5, 5]] : List (List Nat)) ≠ [])
    ∧ ((sendNALUAccessUnitAtTS (fun n => [n]) [[7], [8], [5, 5, 5]] 42).filter
        (fun p => p.marker)).length = 1
    ∧ (∀ p ∈ sendNALUsAtTS (fun n => [n]) 42 [[7], [8], [5, 5, 5]],
        p.marker = false) := by
  have h := marker_policy (fun n => [n]) [[7], [8], [5, 5, 5]] 42 (by simp)
    (by decide) (fun n hn => by simp)
  exact ⟨by simp, h.2.2.1, fun p hp => (h.2.2.2 p hp).1⟩

/-! ## Touch pointer slots and the 32-byte wire encoder (§4.10, §4.11) -/

/-- `maxPointers` (main.go:484). -/
def maxPointers : Nat := 10

/-- The touch slot mapper's state (main.go:486-493): the Go map
`touchLocalByRemote` is modelled as an association list (insert
overwrites), plus the two slot arrays. -/
structure TouchState where
  localByRemote : List (Nat × Nat)
  slotUsed : List Bool
  remoteByLocal : List Nat
deriving DecidableEq

/-- Embedding of `getLocalSlot` (main.go:497-502). -/
def getLocalSlot (ts : TouchState) (remote : Nat) : Option Nat :=
  ts.localByRemote.lookup remote

/-- Embedding of `allocLocalSlot` (main.go:506-519): reuse an existing
mapping, else take the lowest free slot of the `maxPointers` slots;
`none` when all slots are used (Go returns `(0, false)` and changes
nothing). -/
def allocLocalSlot (ts : TouchState) (remote : Nat) : Option (Nat × TouchState) :=
  match getLocalSlot ts remote with
  | some s => some (s, ts)
  | none =>
    match ts.slotUsed.findIdx? (fun b => !b) with
    | some i =>
      some (i, ⟨(remote, i) :: ts.localByRemote, ts.slotUsed.set i true,
        ts.remoteByLocal.set i remote⟩)
    | none => none

/-- Embedding of `freeLocalSlot` (main.go:523-530): drop the mapping, mark
the slot free, zero the reverse entry; no-op for an unmapped remote id. -/
def freeLocalSlot (ts : TouchState) (remote : Nat) : TouchState :=
  match getLocalSlot ts remote with
  | some s =>
    ⟨ts.localByRemote.filter (fun q => q.1 != remote), ts.slotUsed.set s false,
      ts.remoteByLocal.set s 0⟩
  | none => ts

/-- One touch operation, as dispatched by the `switch action` on the slot
mapper inside `handleTouchEvent` (main.go:612-639). -/
inductive TouchOp where
  | down (remote : Nat)
  | up (remote : Nat)
  | move (remote : Nat)
  | cancel (remote : Nat)
deriving DecidableEq

/-- The slot-mapper state effect of one touch event (main.go:612-639):
`down` allocates (dropped without change when full), `up`/`cancel` free an
existing mapping, `move` only reads. -/
def applyTouchOp (ts : TouchState) : TouchOp → TouchState
  | .down r =>
    match allocLocalSlot ts r with
    | some sr => sr.2
    | none => ts
  | .up r =>
    match getLocalSlot ts r with
    | some _ => freeLocalSlot ts r
    | none => ts
  | .cancel r =>
    match getLocalSlot ts r with
    | some _ => freeLocalSlot ts r
    | none => ts
  | .move _ => ts

/-- A sequence of touch operations applied in order. -/
def applyTouchOps (ts : TouchState) (ops : List TouchOp) : TouchState :=
  ops.foldl applyTouchOp ts

/-- Well-formedness of the mapper state: remote keys are unique, every
mapping points at a used slot below `maxPointers`, no slot is mapped by
two distinct remote ids, and the used-slot array has its fixed size. -/
def TouchWF (ts : TouchState) : Prop :=
  (ts.localByRemote.map Prod.fst).Nodup
  ∧ (∀ p ∈ ts.localByRemote, p.2 < maxPointers ∧ ts.slotUsed.getD p.2 false = true)
  ∧ (∀ p ∈ ts.localByRemote, ∀ q ∈ ts.localByRemote, p.2 = q.2 → p.1 = q.1)
  ∧ ts.slotUsed.length = maxPointers

/-- Embedding of `touchEvent` (main.go:537-547); `etype` is the Go field
`Type` ("down" | "up" | "move" | "cancel"), the float64 pressure is a
rational. -/
structure TouchEvent where
  etype : String
  id : Nat
  x : Int
  y : Int
  screenW : Nat
  screenH : Nat
  pressure : ℚ
  buttons : Nat
  pointerType : String
deriving DecidableEq

/-- The `switch ev.Type` action mapping (main.go:589-601), default 2. -/
def actionOf (t : String) : Nat :=
  if t = "down" then 0
  else if t = "up" then 1
  else if t = "move" then 2
  else if t = "cancel" then 3
  else 2

/-- Big-endian encoding of the low `k` bytes of `v` (the
`binary.BigEndian.PutUint*` family). -/
def beBytes : Nat → Nat → List Nat
  | 0, _ => []
  | k + 1, v => (v >>> (8 * k)) % 256 :: beBytes k v

/-- Go's `a &^ b` (AND NOT) on `uint32` values. -/
def andNot32 (a b : Nat) : Nat :=
  a % U32 &&& ((U32 - 1) ^^^ (b % U32))

/-- Go's `uint32(x)` for an `int32` value: reduce modulo `2^32`. -/
def uint32OfInt (x : Int) : Nat :=
  (x % (U32 : Int)).toNat

/-- The pressure encoding (main.go:666-679): clamp to [0,1], map 1 to
0xFFFF, otherwise `uint16(math.Round(f * 65535))`; up events (action 1)
force 0. -/
def pressureFix (action : Nat) (f0 : ℚ) : Nat :=
  if action ≠ 1 then
    let f := if f0 < 0 then 0 else if f0 > 1 then 1 else f0
    if f = 1 then 65535
    else (⌊f * 65535 + 1/2⌋).toNat % U16
  else 0

/-- The pointer-id computation of `handleTouchEvent` (main.go:603-640):
mouse/pen always use id 0 and hover moves (buttons = 0) are dropped; touch
events go through the slot mapper, returned id = slot + 1. `none` means
the event is dropped with no state change. -/
def computePointerID (ts : TouchState) (ev : TouchEvent) (action : Nat) :
    Option (Nat × TouchState) :=
  if ev.pointerType ≠ "touch" then
    if action = 2 ∧ ev.buttons = 0 then none else some (0, ts)
  else
    if action = 0 then
      match allocLocalSlot ts ev.id with
      | some sr => some (sr.1 + 1, sr.2)
      | none => none
    else if action = 1 ∨ action = 3 then
      match getLocalSlot ts ev.id with
      | some s => some (s + 1, freeLocalSlot ts ev.id)
      | none => none
    else
      match getLocalSlot ts ev.id with
      | some s => some (s + 1, ts)
      | none => none

/-- Embedding of `handleTouchEvent` (main.go:551-709): fallback screen
dims, coordinate clamping, action mapping, pointer-id resolution, button
edge computation, pressure encoding and the 32-byte big-endian buffer.
Returns the buffer written to the control socket (`none` = event dropped)
with the updated slot-mapper and button-map states. -/
def handleTouchEvent (videoW videoH : Nat) (ts : TouchState) (pb : List (Nat × Nat))
    (ev : TouchEvent) : Option (List Nat) × TouchState × List (Nat × Nat) :=
  let sw := if ev.screenW = 0 ∨ ev.screenH = 0 then videoW else ev.screenW
  let sh := if ev.screenW = 0 ∨ ev.screenH = 0 then videoH else ev.screenH
  let x0 : Int := if ev.x < 0 then 0 else ev.x
  let y0 : Int := if ev.y < 0 then 0 else ev.y
  let x1 : Int := if 0 < sw ∧ 0 < sh then
    (if x0 > (sw : Int) - 1 then (sw : Int) - 1 else x0) else x0
  let y1 : Int := if 0 < sw ∧ 0 < sh then
    (if y0 > (sh : Int) - 1 then (sh : Int) - 1 else y0) else y0
  let action := actionOf ev.etype
  match computePointerID ts ev action with
  | none => (none, ts, pb)
  | some pr =>
    let prevButtons := ((pb.lookup pr.1).getD 0) % U32
    let nowButtons := (if ev.pointerType = "touch" then 0 else ev.buttons) % U32
    let actionButton :=
      if action = 0 then andNot32 nowButtons prevButtons
      else if action = 1 then andNot32 prevButtons nowButtons
      else 0
    let pb' := if action = 1 ∨ action = 3 then pb.filter (fun q => q.1 != pr.1)
      else (pr.1, nowButtons) :: pb.filter (fun q => q.1 != pr.1)
    let p := pressureFix action ev.pressure
    let buf := [2, action] ++ beBytes 8 pr.1 ++ beBytes 4 (uint32OfInt x1)
      ++ beBytes 4 (uint32OfInt y1) ++ beBytes 2 sw ++ beBytes 2 sh
      ++ beBytes 2 p ++ beBytes 4 actionButton ++ beBytes 4 nowButtons
    (some buf, pr.2, pb')

theorem lookup_some_mem {l : List (Nat × Nat)} {r s : Nat} (h : l.lookup r = some s) :
    (r, s) ∈ l := by
  rw [List.lookup_eq_some_iff] at h
  obtain ⟨l₁, l₂, rfl, -⟩ := h
  simp

theorem lookup_none_ne {l : List (Nat × Nat)} {r : Nat} (h : l.lookup r = none) :
    ∀ p ∈ l, r ≠ p.1 := by
  rw [List.lookup_eq_none_iff] at h
  intro p hp
  simpa using h p hp

theorem findIdx_free_spec : ∀ (l : List Bool) (i : Nat),
    l.findIdx? (fun b => !b) = some i →
    i < l.length ∧ l.getD i true = false ∧ ∀ j, j < i → l.getD j true = true := by
  intro l
  induction l with
  | nil =>
    intro i h
    simp at h
  | cons b rest ih =>
    intro i h
    rw [List.findIdx?_cons] at h
    split at h
    · next hb =>
      simp only [Option.some.injEq] at h
      subst h
      refine ⟨by simp, by simpa using hb, by omega⟩
    · next hb =>
      rw [List.findIdx?_succ] at h
      rw [Option.map_eq_some'] at h
      obtain ⟨i', hi', rfl⟩ := h
      obtain ⟨h1, h2, h3⟩ := ih i' hi'
      refine ⟨by simp; omega, by simpa using h2, ?_⟩
      intro j hj
      cases j with
      | zero =>
        simp only [List.getD_cons_zero]
        simpa using hb
      | succ j' =>
        simp only [List.getD_cons_succ]
        exact h3 j' (by omega)

theorem findIdx_free_none {l : List Bool}
    (h : l.findIdx? (fun b => !b) = none) : ∀ b ∈ l, b = true := by
  rw [List.findIdx?_eq_none_iff] at h
  intro b hb
  simpa using h b hb

theorem getD_set_self_bool (l : List Bool) (i : Nat) (a : Bool) (hi : i < l.length) :
    (l.set i a).getD i false = a := by
  simp [List.getD_eq_getElem?_getD, List.getElem?_set_self hi]

theorem getD_set_ne_bool (l : List Bool) (i j : Nat) (a : Bool) (hij : i ≠ j) :
    (l.set i a).getD j false = l.getD j false := by
  simp [List.getD_eq_getElem?_getD, List.getElem?_set_ne hij]

theorem TouchWF_alloc {ts ts2 : TouchState} {r s : Nat} (hwf : TouchWF ts)
    (h : allocLocalSlot ts r = some (s, ts2)) : TouchWF ts2 := by
  obtain ⟨hk, hmu, hinj, hlen⟩ := hwf
  rw [allocLocalSlot] at h
  split at h
  · simp only [Option.some.injEq, Prod.mk.injEq] at h
    rw [← h.2]
    exact ⟨hk, hmu, hinj, hlen⟩
  · next hlook =>
    split at h
    · next i hfind =>
      simp only [Option.some.injEq, Prod.mk.injEq] at h
      obtain ⟨rfl, rfl⟩ := h
      obtain ⟨hilen, hifree, -⟩ := findIdx_free_spec _ _ hfind
      have hifree0 : ts.slotUsed.getD i false = false := by
        rw [List.getD_eq_getElem _ _ hilen]
        rw [List.getD_eq_getElem _ _ hilen] at hifree
        exact hifree
      have hnotin := lookup_none_ne hlook
      refine ⟨?_, ?_, ?_, by simpa using hlen⟩
      · simp only [List.map_cons]
        rw [List.nodup_cons]
        refine ⟨?_, hk⟩
        intro hmem
        rw [List.mem_map] at hmem
        obtain ⟨q, hq, hq1⟩ := hmem
        exact hnotin q hq hq1.symm
      · intro p hp
        rw [List.mem_cons] at hp
        rcases hp with rfl | hp
        · exact ⟨by omega, getD_set_self_bool _ _ _ hilen⟩
        · obtain ⟨hps, hpu⟩ := hmu p hp
          refine ⟨hps, ?_⟩
          by_cases hpi : i = p.2
          · rw [← hpi]
            exact getD_set_self_bool _ _ _ hilen
          · rw [getD_set_ne_bool _ _ _ _ hpi]
            exact hpu
      · intro p hp q hq hpq
        rw [List.mem_cons] at hp hq
        rcases hp with rfl | hp <;> rcases hq with rfl | hq
        · rfl
        · exfalso
          obtain ⟨-, hqu⟩ := hmu q hq
          rw [← hpq] at hqu
          rw [hifree0] at hqu
          exact Bool.false_ne_true hqu
        · exfalso
          obtain ⟨-, hpu⟩ := hmu p hp
          rw [hpq] at hpu
          rw [hifree0] at hpu
          exact Bool.false_ne_true hpu
        · exact hinj p hp q hq hpq
    · exact absurd h (by simp)

theorem TouchWF_free {ts : TouchState} (r : Nat) (hwf : TouchWF ts) :
    TouchWF (freeLocalSlot ts r) := by
  obtain ⟨hk, hmu, hinj, hlen⟩ := hwf
  rw [freeLocalSlot]
  split
  · next s hlook =>
    have hrs : (r, s) ∈ ts.localByRemote := lookup_some_mem hlook
    have hslt : s < maxPointers := (hmu _ hrs).1
    refine ⟨?_, ?_, ?_, by simpa using hlen⟩
    · exact ((List.filter_sublist _).map Prod.fst).nodup hk
    · intro p hp
      have hpmem := List.mem_of_mem_filter hp
      have hpne : p.1 ≠ r := by
        have := List.of_mem_filter hp
        simpa using this
      obtain ⟨hps, hpu⟩ := hmu p hpmem
      refine ⟨hps, ?_⟩
      by_cases hpsi : s = p.2
      · exfalso
        exact hpne (hinj p hpmem (r, s) hrs hpsi.symm)
      · rw [getD_set_ne_bool _ _ _ _ hpsi]
        exact hpu
    · intro p hp q hq hpq
      exact hinj p (List.mem_of_mem_filter hp) q (List.mem_of_mem_filter hq) hpq
  · exact ⟨hk, hmu, hinj, hlen⟩

theorem TouchWF_step {ts : TouchState} (hwf : TouchWF ts) (op : TouchOp) :
    TouchWF (applyTouchOp ts op) := by
  cases op with
  | down r =>
    rw [applyTouchOp]
    split
    · next sr halloc => exact TouchWF_alloc hwf (by rw [halloc])
    · exact hwf
  | up r =>
    rw [applyTouchOp]
    split
    · exact TouchWF_free r hwf
    · exact hwf
  | cancel r =>
    rw [applyTouchOp]
    split
    · exact TouchWF_free r hwf
    · exact hwf
  | move r => exact hwf

theorem mappedSlots_nodup (l : List (Nat × Nat))
    (hk : (l.map Prod.fst).Nodup)
    (hinj : ∀ p ∈ l, ∀ q ∈ l, p.2 = q.2 → p.1 = q.1) :
    (l.map Prod.snd).Nodup := by
  induction l with
  | nil => simp
  | cons p rest ih =>
    simp only [List.map_cons, List.nodup_cons] at hk ⊢
    refine ⟨?_, ih hk.2 (fun a ha b hb hab => hinj a (by simp [ha]) b (by simp [hb]) hab)⟩
    intro hmem
    rw [List.mem_map] at hmem
    obtain ⟨q, hq, hq2⟩ := hmem
    have heq := hinj p (by simp) q (by simp [hq]) hq2.symm
    exact hk.1 (by rw [List.mem_map]; exact ⟨q, hq, heq.symm⟩)

theorem mapped_le_max (ts : TouchState) (hwf : TouchWF ts) :
    ts.localByRemote.length ≤ maxPointers := by
  have hnd := mappedSlots_nodup _ hwf.1 hwf.2.2.1
  have hsub : ts.localByRemote.map Prod.snd ⊆ List.range maxPointers := by
    intro s hs
    rw [List.mem_map] at hs
    obtain ⟨p, hp, rfl⟩ := hs
    rw [List.mem_range]
    exact (hwf.2.1 p hp).1
  have hle := (hnd.subperm hsub).length_le
  simpa using hle

/-- C6: from a well-formed mapper state, every sequence of
down/move/up/cancel operations preserves well-formedness (in particular no
slot is ever mapped by two distinct remote ids) and at most `maxPointers`
mappings are in use; `down` reuses an existing mapping unchanged or
assigns the lowest free slot in `[0..maxPointers)` (the event's pointer id
`slot+1` lies in `[1..maxPointers]`); a `down` with all slots used is
dropped with the state unchanged; and `up`/`cancel` free the slot. -/
theorem touchSlotMapper_correct (ts : TouchState) (hwf : TouchWF ts) :
    (∀ ops, TouchWF (applyTouchOps ts ops))
    ∧ ts.localByRemote.length ≤ maxPointers
    ∧ (∀ r s, getLocalSlot ts r = some s → allocLocalSlot ts r = some (s, ts))
    ∧ (∀ r s ts2, getLocalSlot ts r = none → allocLocalSlot ts r = some (s, ts2) →
        s < maxPointers ∧ 1 ≤ s + 1 ∧ s + 1 ≤ maxPointers
        ∧ ts.slotUsed.getD s true = false
        ∧ (∀ j, j < s → ts.slotUsed.getD j true = true)
        ∧ getLocalSlot ts2 r = some s)
    ∧ (∀ r, getLocalSlot ts r = none →
        (∀ b ∈ ts.slotUsed, b = true) →
        allocLocalSlot ts r = none ∧ applyTouchOp ts (TouchOp.down r) = ts)
    ∧ (∀ r s, getLocalSlot ts r = some s →
        getLocalSlot (applyTouchOp ts (TouchOp.up r)) r = none
        ∧ (applyTouchOp ts (TouchOp.up r)).slotUsed.getD s false = false
        ∧ applyTouchOp ts (TouchOp.cancel r) = applyTouchOp ts (TouchOp.up r)) := by
  refine ⟨?_, mapped_le_max ts hwf, ?_, ?_, ?_, ?_⟩
  · intro ops
    induction ops generalizing ts with
    | nil => exact hwf
    | cons op rest ih => exact ih _ (TouchWF_step hwf op)
  · intro r s hlook
    rw [allocLocalSlot, hlook]
  · intro r s ts2 hlook halloc
    rw [allocLocalSlot, hlook] at halloc
    split at halloc
    · next s' hcontra =>
      simp at hcontra
    · split at halloc
      · next i hfind =>
        simp only [Option.some.injEq, Prod.mk.injEq] at halloc
        obtain ⟨rfl, rfl⟩ := halloc
        obtain ⟨hilen, hifree, hmin⟩ := findIdx_free_spec _ _ hfind
        have hlen10 : ts.slotUsed.length = maxPointers := hwf.2.2.2
        refine ⟨by omega, by omega, by omega, hifree, hmin, ?_⟩
        simp [getLocalSlot, List.lookup_cons]
      · exact absurd halloc (by simp)
  · intro r hlook hall
    have hfind : ts.slotUsed.findIdx? (fun b => !b) = none := by
      rw [List.findIdx?_eq_none_iff]
      intro b hb
      simp [hall b hb]
    constructor
    · rw [allocLocalSlot, hlook, hfind]
    · rw [applyTouchOp]
      split
      · next sr halloc =>
        rw [allocLocalSlot, hlook, hfind] at halloc
        exact absurd halloc (by simp)
      · rfl
  · intro r s hlook
    have hmem : (r, s) ∈ ts.localByRemote := lookup_some_mem hlook
    have hslt : s < maxPointers := (hwf.2.1 _ hmem).1
    have hlen10 : ts.slotUsed.length = maxPointers := hwf.2.2.2
    have hup : applyTouchOp ts (TouchOp.up r) = freeLocalSlot ts r := by
      rw [applyTouchOp, hlook]
    have hfree : freeLocalSlot ts r =
        ⟨ts.localByRemote.filter (fun q => q.1 != r), ts.slotUsed.set s false,
          ts.remoteByLocal.set s 0⟩ := by
      rw [freeLocalSlot, hlook]
    refine ⟨?_, ?_, ?_⟩
    · rw [hup, hfree, getLocalSlot]
      rw [List.lookup_eq_none_iff]
      intro p hp
      have h2 := List.of_mem_filter hp
      simp only [bne_iff_ne] at h2 ⊢
      exact Ne.symm h2
    · rw [hup, hfree]
      exact getD_set_self_bool _ _ _ (by omega)
    · have hcan : applyTouchOp ts (TouchOp.cancel r) = freeLocalSlot ts r := by
        rw [applyTouchOp, hlook]
      rw [hcan, hup]

/-- Closed instance of `touchSlotMapper_correct` on the empty mapper: a
down/down/up/down sequence keeps the state well-formed, the first `down`
gets the lowest slot 0 (pointer id 1 ∈ [1..10]), and `up` frees it. -/
theorem touchSlotMapper_correct_witness :
    TouchWF ⟨[], List.replicate 10 false, List.replicate 10 0⟩
    ∧ TouchWF (applyTouchOps ⟨[], List.replicate 10 false, List.replicate 10 0⟩
        [TouchOp.down 42, TouchOp.down 7, TouchOp.up 42, TouchOp.down 9])
    ∧ (∀ s ts2, getLocalSlot ⟨[], List.replicate 10 false, List.replicate 10 0⟩ 42 = none →
        allocLocalSlot ⟨[], List.replicate 10 false, List.replicate 10 0⟩ 42 = some (s, ts2) →
        s < maxPointers ∧ 1 ≤ s + 1 ∧ s + 1 ≤ maxPointers) := by
  have hwf0 : TouchWF ⟨[], List.replicate 10 false, List.replicate 10 0⟩ := by
    refine ⟨by simp, by simp, by simp, by simp [maxPointers]⟩
  have h := touchSlotMapper_correct _ hwf0
  refine ⟨hwf0, h.1 [TouchOp.down 42, TouchOp.down 7, TouchOp.up 42, TouchOp.down 9], ?_⟩
  intro s ts2 hlook halloc
  obtain ⟨h1, h2, h3, -⟩ := h.2.2.2.1 42 s ts2 hlook halloc
  exact ⟨h1, h2, h3⟩

/-! ## C5: the 32-byte wire format of handleTouchEvent -/

/-- Specification-side clamp of a coordinate to `[0, bound-1]`. -/
def clampCoord (v : Int) (bound : Nat) : Int :=
  min (max v 0) ((bound : Int) - 1)

/-- Specification-side pressure encoding: `round(f * 65535)` to the
nearest integer (round half up, as `math.Round` on these values). -/
def specPressure (f : ℚ) : Nat :=
  (⌊f * 65535 + 1/2⌋).toNat

theorem beBytes_length : ∀ k v, (beBytes k v).length = k := by
  intro k
  induction k with
  | zero => intro v; rfl
  | succ k ih => intro v; simp [beBytes, ih]

theorem clamp_if_eq (v : Int) (bound : Nat) :
    (if (if v < 0 then 0 else v) > (bound : Int) - 1 then (bound : Int) - 1
      else if v < 0 then 0 else v) = clampCoord v bound := by
  rw [clampCoord]
  split_ifs <;> omega

theorem pressureFix_spec (action : Nat) {f : ℚ} (h0 : 0 ≤ f) (h1 : f ≤ 1) :
    pressureFix action f = if action = 1 then 0 else specPressure f := by
  by_cases ha : action = 1
  · simp [pressureFix, ha]
  · have hnl : ¬f < 0 := not_lt.mpr h0
    have hng : ¬f > 1 := not_lt.mpr h1
    simp only [pressureFix, ne_eq, ha, not_false_eq_true, if_true, hnl, if_false, hng,
      specPressure]
    by_cases hf : f = 1
    · subst hf
      have h65535 : ⌊(1 : ℚ) * 65535 + 1/2⌋ = (65535 : ℤ) := by
        rw [Int.floor_eq_iff]
        norm_num
      rw [if_pos rfl, h65535]
      rfl
    · rw [if_neg hf]
      have hflt : f < 1 := lt_of_le_of_ne h1 hf
      have hlt : ⌊f * 65535 + 1/2⌋ < 65536 := by
        rw [Int.floor_lt]
        push_cast
        linarith
      have hsmall : (⌊f * 65535 + 1/2⌋).toNat < U16 := by
        simp only [U16]
        omega
      exact Nat.mod_eq_of_lt hsmall

theorem computePointerID_touch_pos (ts : TouchState) (ev : TouchEvent) (action : Nat)
    (pr : Nat × TouchState) (ht : ev.pointerType = "touch")
    (h : computePointerID ts ev action = some pr) : 1 ≤ pr.1 := by
  rw [computePointerID, if_neg (by simp [ht])] at h
  split at h
  · split at h
    · next sr hall =>
      simp only [Option.some.injEq] at h
      subst h
      exact Nat.le_add_left 1 sr.1
    · exact absurd h (by simp)
  · split at h
    · split at h
      · next s hg =>
        simp only [Option.some.injEq] at h
        subst h
        exact Nat.le_add_left 1 s
      · exact absurd h (by simp)
    · split at h
      · next s hg =>
        simp only [Option.some.injEq] at h
        subst h
        exact Nat.le_add_left 1 s
      · exact absurd h (by simp)

theorem computePointerID_nontouch_zero (ts : TouchState) (ev : TouchEvent) (action : Nat)
    (pr : Nat × TouchState) (ht : ev.pointerType ≠ "touch")
    (h : computePointerID ts ev action = some pr) : pr.1 = 0 := by
  rw [computePointerID, if_pos ht] at h
  split at h
  · exact absurd h (by simp)
  · simp only [Option.some.injEq] at h
    subst h
    rfl

/-- **C5.** Whenever `handleTouchEvent` emits a buffer (with the event's own
non-zero screen dimensions and a pressure in `[0,1]`, and with every touch
entry of the button map holding 0), the buffer is exactly 32 big-endian
bytes: byte 0 is 2, byte 1 the action code, a `u64` pointer id at `[2,10)`,
the `x` and `y` coordinates clamped to `[0, screenW-1]` and
`[0, screenH-1]` at `[10,14)` and `[14,18)`, the `u16` screen dimensions at
`[18,22)`, the pressure as `round(f*65535)` (0 forced on `up` events, so
`f = 1` maps to 0xFFFF) at `[22,24)`, and `u32` actionButton and buttons
words at `[24,28)` and `[28,32)` that are both 0 for touch-type events;
moreover the updated button map again holds 0 for every touch entry. -/
theorem handleTouchEvent_wire_format
    (videoW videoH : Nat) (ts : TouchState) (pb : List (Nat × Nat)) (ev : TouchEvent)
    (buf : List Nat) (ts2 : TouchState) (pb2 : List (Nat × Nat))
    (hsw : ev.screenW ≠ 0) (hsh : ev.screenH ≠ 0)
    (hp0 : 0 ≤ ev.pressure) (hp1 : ev.pressure ≤ 1)
    (hpb : ∀ q ∈ pb, 1 ≤ q.1 → q.2 = 0)
    (hres : handleTouchEvent videoW videoH ts pb ev = (some buf, ts2, pb2)) :
    buf.length = 32
    ∧ (∃ pid actionButton nowButtons,
        buf = [2, actionOf ev.etype] ++ beBytes 8 pid
          ++ beBytes 4 (uint32OfInt (clampCoord ev.x ev.screenW))
          ++ beBytes 4 (uint32OfInt (clampCoord ev.y ev.screenH))
          ++ beBytes 2 ev.screenW ++ beBytes 2 ev.screenH
          ++ beBytes 2 (if actionOf ev.etype = 1 then 0 else specPressure ev.pressure)
          ++ beBytes 4 actionButton ++ beBytes 4 nowButtons
        ∧ (ev.pointerType = "touch" → actionButton = 0 ∧ nowButtons = 0))
    ∧ (∀ q ∈ pb2, 1 ≤ q.1 → q.2 = 0) := by
  have hw0 : 0 < ev.screenW := Nat.pos_of_ne_zero hsw
  have hh0 : 0 < ev.screenH := Nat.pos_of_ne_zero hsh
  have hor : ¬(ev.screenW = 0 ∨ ev.screenH = 0) := by simp [hsw, hsh]
  simp only [handleTouchEvent, hor, hw0, hh0, and_self, if_true, if_false, reduceIte] at hres
  split at hres
  · next heq =>
    simp at hres
  · next pr heq =>
    simp only [Prod.mk.injEq, Option.some.injEq] at hres
    obtain ⟨hbuf, hts, hpb2⟩ := hres
    subst hbuf
    subst hpb2
    refine ⟨?_, ⟨pr.1,
      (if actionOf ev.etype = 0 then
        andNot32 ((if ev.pointerType = "touch" then 0 else ev.buttons) % U32)
          (((pb.lookup pr.1).getD 0) % U32)
       else if actionOf ev.etype = 1 then
        andNot32 (((pb.lookup pr.1).getD 0) % U32)
          ((if ev.pointerType = "touch" then 0 else ev.buttons) % U32)
       else 0),
      ((if ev.pointerType = "touch" then 0 else ev.buttons) % U32), ?_, ?_⟩, ?_⟩
    · simp [beBytes_length]
    · rw [← clamp_if_eq ev.x ev.screenW, ← clamp_if_eq ev.y ev.screenH,
        ← pressureFix_spec (actionOf ev.etype) hp0 hp1]
    · intro htouch
      have hpos := computePointerID_touch_pos ts ev (actionOf ev.etype) pr htouch heq
      have hprev : (pb.lookup pr.1).getD 0 = 0 := by
        cases hl : pb.lookup pr.1 with
        | none => rfl
        | some v =>
          have hv := hpb _ (lookup_some_mem hl) hpos
          simpa using hv
      constructor
      · simp [htouch, hprev, andNot32]
      · simp [htouch]
    · intro q hq hq1
      split at hq
      · exact hpb _ (List.mem_of_mem_filter hq) hq1
      · rcases List.mem_cons.mp hq with rfl | hq'
        · by_cases ht : ev.pointerType = "touch"
          · simp [ht]
          · have h0 := computePointerID_nontouch_zero ts ev (actionOf ev.etype) pr ht heq
            have h1' : 1 ≤ pr.1 := hq1
            omega
        · exact hpb _ (List.mem_of_mem_filter hq') hq1

/-- Concrete touch-down event used to instantiate `handleTouchEvent_wire_format`. -/
def touchEv0 : TouchEvent :=
  ⟨"down", 42, -5, 10, 1080, 1920, 1, 0, "touch"⟩

/-- The empty slot-mapper state. -/
def touchTS0 : TouchState :=
  ⟨[], List.replicate 10 false, List.replicate 10 0⟩

/-- The 32-byte buffer `handleTouchEvent` emits for `touchEv0` from the
empty state: down action, pointer id 1, x clamped from -5 to 0, y = 10,
1080×1920 screen, pressure 1 ↦ 0xFFFF, zero button words. -/
def touchBuf0 : List Nat :=
  [2, 0, 0, 0, 0, 0, 0, 0, 0, 1, 0, 0, 0, 0, 0, 0, 0, 10, 4, 56, 7, 128, 255, 255,
   0, 0, 0, 0, 0, 0, 0, 0]

/-- Closed instance of `handleTouchEvent_wire_format` on `touchEv0`. -/
theorem handleTouchEvent_wire_format_witness :
    handleTouchEvent 0 0 touchTS0 [] touchEv0
      = (some touchBuf0,
          ⟨[(42, 0)], (List.replicate 10 false).set 0 true,
            (List.replicate 10 0).set 0 42⟩, [(1, 0)])
    ∧ (touchBuf0.length = 32
      ∧ (∃ pid actionButton nowButtons,
          touchBuf0 = [2, actionOf touchEv0.etype] ++ beBytes 8 pid
            ++ beBytes 4 (uint32OfInt (clampCoord touchEv0.x touchEv0.screenW))
            ++ beBytes 4 (uint32OfInt (clampCoord touchEv0.y touchEv0.screenH))
            ++ beBytes 2 touchEv0.screenW ++ beBytes 2 touchEv0.screenH
            ++ beBytes 2 (if actionOf touchEv0.etype = 1 then 0
                else specPressure touchEv0.pressure)
            ++ beBytes 4 actionButton ++ beBytes 4 nowButtons
          ∧ (touchEv0.pointerType = "touch" → actionButton = 0 ∧ nowButtons = 0))
      ∧ (∀ q ∈ [((1 : Nat), (0 : Nat))], 1 ≤ q.1 → q.2 = 0)) := by
  have hres : handleTouchEvent 0 0 touchTS0 [] touchEv0
      = (some touchBuf0,
          ⟨[(42, 0)], (List.replicate 10 false).set 0 true,
            (List.replicate 10 0).set 0 42⟩, [(1, 0)]) := by decide
  exact ⟨hres, handleTouchEvent_wire_format 0 0 touchTS0 [] touchEv0 touchBuf0 _ _
    (by decide) (by decide) (by decide) (by decide)
    (by simp) hres⟩

end ScrcpyGo
